import Mathlib

/-!
# Verification of the open-bess-edge price-forecasting / arbitrage-scheduling core

Shallow embedding, over `ℚ`, of the two core modules of the repository:

* `src/interfaces/cmg_predictor.py`  (`CMgPredictor`, `PriceForecast`)
* `src/interfaces/arbitrage_engine.py` (`ArbitrageEngine`, `ArbitrageSchedule`,
  `DispatchSlot`)

Modelling conventions:

* Python floats are modelled as exact rationals; float literals such as `0.92`
  denote the decimal rationals they are written as.  All concrete inputs used
  in counterexamples and witnesses are chosen so that the corresponding Python
  float computation is exact (dyadic values, products within 2^53), so the
  rational trace and the float trace coincide on them.
* `round(x, n)` / `round(x)` is Python's round-half-to-even, embedded exactly
  as `pyRound` / `pyRoundInt` below.
* `math.exp(-offset / 12)` (a transcendental) is modelled by an abstract decay
  function `decay : ℕ → ℚ`; the theorems that involve it only use the fact
  `0 < decay o < 1` for `1 ≤ o ≤ 24`, which holds for the real exponential.
* `x ** 0.5` / `statistics.stdev` (float square root) is modelled by
  `ratSqrt`, which is exact whenever the radicand is the square of a rational
  (all concrete inputs below are chosen that way) and is always nonnegative,
  matching float sqrt.
* The ONNX inference sessions are arbitrary functions
  `List ℚ → Option ℚ` (`none` models a raised inference exception).
* Code that can raise in Python (`ZeroDivisionError` in
  `ArbitrageEngine._price_threshold` on an empty viable list, and in the SOC
  update when `capacity_kwh = 0`) is modelled with `Option`: `none` marks
  exactly the raising executions.
-/

namespace OpenBess

/-! ## Python `round` (banker's rounding) over `ℚ` -/

/-- Python `round(x)`: round half to even, to an integer. -/
def pyRoundInt (x : ℚ) : ℤ :=
  if x - (⌊x⌋ : ℚ) < 1/2 then ⌊x⌋
  else if 1/2 < x - (⌊x⌋ : ℚ) then ⌊x⌋ + 1
  else if ⌊x⌋ % 2 = 0 then ⌊x⌋ else ⌊x⌋ + 1

/-- Python `round(x, n)` for `n ≥ 1` digits: round half to even at the n-th
decimal. -/
def pyRound (x : ℚ) (n : ℕ) : ℚ :=
  (pyRoundInt (x * 10 ^ n) : ℚ) / 10 ^ n

theorem pyRoundInt_le_floor_add_one (x : ℚ) : pyRoundInt x ≤ ⌊x⌋ + 1 := by
  unfold pyRoundInt; split_ifs <;> omega

theorem floor_le_pyRoundInt (x : ℚ) : ⌊x⌋ ≤ pyRoundInt x := by
  unfold pyRoundInt; split_ifs <;> omega

theorem pyRoundInt_le_add_one (x : ℚ) : (pyRoundInt x : ℚ) ≤ x + 1 := by
  have h1 := pyRoundInt_le_floor_add_one x
  have h2 : ((⌊x⌋ : ℤ) : ℚ) ≤ x := Int.floor_le x
  have h3 : ((pyRoundInt x : ℤ) : ℚ) ≤ ((⌊x⌋ + 1 : ℤ) : ℚ) := by exact_mod_cast h1
  push_cast at h3; linarith

theorem le_pyRoundInt (x : ℚ) : x - 1 ≤ (pyRoundInt x : ℚ) := by
  have h1 := floor_le_pyRoundInt x
  have h2 : x < (⌊x⌋ : ℚ) + 1 := Int.lt_floor_add_one x
  have h3 : ((⌊x⌋ : ℤ) : ℚ) ≤ ((pyRoundInt x : ℤ) : ℚ) := by exact_mod_cast h1
  linarith

/-- Half-unit error bound for Python integer rounding. -/
theorem pyRoundInt_sub_le (x : ℚ) : |(pyRoundInt x : ℚ) - x| ≤ 1/2 := by
  have hf : ((⌊x⌋ : ℤ) : ℚ) ≤ x := Int.floor_le x
  have hf' : x < (⌊x⌋ : ℚ) + 1 := Int.lt_floor_add_one x
  rw [abs_le]
  unfold pyRoundInt
  split_ifs with h1 h2 h3 <;> constructor <;> push_cast <;> linarith

theorem pyRoundInt_mono {x y : ℚ} (h : x ≤ y) : pyRoundInt x ≤ pyRoundInt y := by
  have hfl : ⌊x⌋ ≤ ⌊y⌋ := Int.floor_le_floor h
  rcases lt_or_eq_of_le hfl with hlt | heq
  · calc pyRoundInt x ≤ ⌊x⌋ + 1 := pyRoundInt_le_floor_add_one x
      _ ≤ ⌊y⌋ := by omega
      _ ≤ pyRoundInt y := floor_le_pyRoundInt y
  · have hr : x - (⌊x⌋ : ℚ) ≤ y - (⌊x⌋ : ℚ) := by linarith
    unfold pyRoundInt
    rw [← heq]
    split_ifs <;> first | omega | (exfalso; linarith)

theorem pyRoundInt_zero : pyRoundInt 0 = 0 := by
  norm_num [pyRoundInt]

theorem pyRoundInt_nonneg {x : ℚ} (h : 0 ≤ x) : 0 ≤ pyRoundInt x := by
  have := pyRoundInt_mono h
  rw [pyRoundInt_zero] at this
  exact this

theorem pyRound_mono {x y : ℚ} (n : ℕ) (h : x ≤ y) : pyRound x n ≤ pyRound y n := by
  unfold pyRound
  have hp : (0:ℚ) < 10 ^ n := by positivity
  have h2 := pyRoundInt_mono (mul_le_mul_of_nonneg_right h (le_of_lt hp))
  have h3 : ((pyRoundInt (x * 10 ^ n) : ℤ) : ℚ) ≤ ((pyRoundInt (y * 10 ^ n) : ℤ) : ℚ) := by
    exact_mod_cast h2
  gcongr

theorem pyRound_zero (n : ℕ) : pyRound 0 n = 0 := by
  unfold pyRound
  norm_num [pyRoundInt_zero]

theorem pyRound_nonneg {x : ℚ} (n : ℕ) (h : 0 ≤ x) : 0 ≤ pyRound x n := by
  have := pyRound_mono n h
  rw [pyRound_zero] at this; exact this

theorem pyRound_nonpos {x : ℚ} (n : ℕ) (h : x ≤ 0) : pyRound x n ≤ 0 := by
  have := pyRound_mono n h
  rw [pyRound_zero] at this; exact this

/-! ## Square-root model

Model of the Python float operations `x ** 0.5` / `statistics.stdev`: exact
when the radicand is the square of a rational, nonnegative always (as float
sqrt is on nonnegative input). -/

/-- Integer square root by bisection with explicit fuel (34 steps covers every
radicand below `2^34`; all concrete radicands in this file are far smaller).
Structurally recursive and shallow so that kernel reduction is fast. -/
def isqrtAux (n : ℕ) : ℕ → ℕ → ℕ → ℕ
  | 0, lo, _ => lo
  | fuel + 1, lo, hi =>
    if hi ≤ lo + 1 then lo
    else
      let mid := (lo + hi) / 2
      if mid * mid ≤ n then isqrtAux n fuel mid hi else isqrtAux n fuel lo mid

def isqrt (n : ℕ) : ℕ := isqrtAux n 34 0 (n + 1)

def ratSqrt (x : ℚ) : ℚ :=
  (isqrt (x.num.toNat * x.den) : ℚ) / (x.den : ℚ)

theorem ratSqrt_nonneg (x : ℚ) : 0 ≤ ratSqrt x := by
  unfold ratSqrt
  positivity

theorem ratSqrt_zero : ratSqrt 0 = 0 := by
  with_unfolding_all decide

/-! ## List helpers mirroring Python built-ins -/

/-- Python `lst[-n:]` for a nonnegative `n` (note `lst[-0:]` is the whole
list). -/
def sliceLastN (l : List α) (n : ℕ) : List α :=
  if n = 0 then l else l.drop (l.length - n)

/-- Python `statistics.mean`. -/
def listMean (l : List ℚ) : ℚ := l.sum / l.length

/-- Python `statistics.stdev` (sample standard deviation, `n - 1`
denominator), via the sqrt model. -/
def sampleStdev (l : List ℚ) : ℚ :=
  let m := listMean l
  ratSqrt ((l.map (fun v => (v - m) ^ 2)).sum / ((l.length : ℚ) - 1))

/-- Python `max` over a nonempty list (head-seeded fold). -/
def listMax1 (a : ℚ) (l : List ℚ) : ℚ := l.foldl max a

/-- Python `min` over a nonempty list (head-seeded fold). -/
def listMin1 (a : ℚ) (l : List ℚ) : ℚ := l.foldl min a

/-! ## `PriceForecast` (src/interfaces/cmg_predictor.py, `@dataclass PriceForecast`) -/

/-- `_PEAK_HOURS` -/
def peakHours : List ℕ := [18, 19, 20, 21, 22]

/-- `_SOLAR_TROUGH_HOURS` -/
def solarTroughHours : List ℕ := [11, 12, 13, 14, 15, 16]

/-- Single-hour CMg price forecast (fields of the Python dataclass after
`__post_init__` ran). -/
structure PriceForecast where
  hour : ℕ
  cmg_clp_kwh : ℚ
  confidence : ℚ
  method : String
  cmg_p10 : ℚ
  cmg_p90 : ℚ
  is_peak : Bool
  is_solar_trough : Bool
deriving DecidableEq, Repr

/-- Dataclass construction including `__post_init__`: derived peak/trough
flags and the ±15 % default bands when a band argument is `0.0`. -/
def mkPriceForecast (hour : ℕ) (cmg conf : ℚ) (method : String)
    (p10 p90 : ℚ) : PriceForecast :=
  let p90' := if p90 = 0 then pyRound (cmg * (115/100)) 2 else p90
  let p10' := if p10 = 0 then pyRound (cmg * (85/100)) 2 else p10
  { hour := hour
    cmg_clp_kwh := cmg
    confidence := conf
    method := method
    cmg_p10 := p10'
    cmg_p90 := p90'
    is_peak := hour ∈ peakHours
    is_solar_trough := hour ∈ solarTroughHours }

/-- Python keyword call `PriceForecast(hour=h, cmg_clp_kwh=p)` with the
dataclass defaults `confidence=1.0, method="historic_mean", cmg_p10=0.0,
cmg_p90=0.0`. -/
def mkPriceForecastDefault (hour : ℕ) (cmg : ℚ) : PriceForecast :=
  mkPriceForecast hour cmg 1 "historic_mean" 0 0

/-! ## `ArbitrageEngine` (src/interfaces/arbitrage_engine.py) -/

inductive Action where
  | charge
  | discharge
  | hold
deriving DecidableEq, Repr

/-- One hour of the dispatch schedule (`@dataclass DispatchSlot`). -/
structure DispatchSlot where
  hour : ℕ
  action : Action
  power_kw : ℚ
  forecast : PriceForecast
  soc_before_pct : ℚ
  soc_after_pct : ℚ
  revenue_clp : ℚ
deriving DecidableEq, Repr

/-- `@dataclass ArbitrageSchedule` (the `node` label is omitted: it is a
logging tag never read by the algorithm). -/
structure ArbitrageSchedule where
  slots : List DispatchSlot
  projected_revenue_clp : ℚ
  projected_cost_clp : ℚ
  projected_net_clp : ℚ
  n_charge_hours : ℕ
  n_discharge_hours : ℕ
  capacity_kwh : ℚ
  efficiency : ℚ
deriving DecidableEq, Repr

/-- Dataclass defaults of `ArbitrageSchedule` (used by the empty-forecast
early return, which passes only `node`). -/
def ArbitrageSchedule.defaults : ArbitrageSchedule :=
  { slots := []
    projected_revenue_clp := 0
    projected_cost_clp := 0
    projected_net_clp := 0
    n_charge_hours := 0
    n_discharge_hours := 0
    capacity_kwh := 1000
    efficiency := 92/100 }

/-- Constructor parameters of `ArbitrageEngine.__init__`. -/
structure EngineCfg where
  capacity_kwh : ℚ
  max_power_kw : ℚ
  min_soc_pct : ℚ
  max_soc_pct : ℚ
  efficiency : ℚ
  max_charge_hours : ℕ
  max_discharge_hours : ℕ
  min_confidence : ℚ
  min_spread_clp : ℚ
deriving DecidableEq, Repr

/-- The Python constructor defaults. -/
def EngineCfg.defaults : EngineCfg :=
  { capacity_kwh := 1000
    max_power_kw := 500
    min_soc_pct := 10
    max_soc_pct := 95
    efficiency := 92/100
    max_charge_hours := 6
    max_discharge_hours := 4
    min_confidence := 4/10
    min_spread_clp := 30 }

/-- `mean = sum(prices) / len(prices)` of `ArbitrageEngine._price_threshold`. -/
def meanOfPrices (prices : List ℚ) : ℚ := prices.sum / (prices.length : ℚ)

/-- `variance = sum((p - mean)**2) / len(prices)` of `_price_threshold`
(population variance). -/
def popVariance (prices : List ℚ) : ℚ :=
  (prices.map (fun p => (p - meanOfPrices prices) ^ 2)).sum / (prices.length : ℚ)

def thresholdOfPrices (prices : List ℚ) (high : Bool) : ℚ :=
  if high then meanOfPrices prices + (1/2) * ratSqrt (popVariance prices)
  else meanOfPrices prices - (1/2) * ratSqrt (popVariance prices)

/-- `ArbitrageEngine._price_threshold` — charge (`high = false`) or discharge
(`high = true`) price threshold: `mean ∓ 0.5 σ` with the population σ of the
given forecasts' point prices.  `none` models the `ZeroDivisionError` Python
raises on an empty list. -/
def priceThreshold (fcs : List PriceForecast) (high : Bool) : Option ℚ :=
  match fcs with
  | [] => none
  | _ => some (thresholdOfPrices (fcs.map (·.cmg_clp_kwh)) high)

/-- Python's stable ascending `sorted(..., key=...)`, as insertion sort on a
total `≤` of keys (insertion sort with `≤` is stable, like CPython's sort). -/
def sortByPrice (l : List PriceForecast) : List PriceForecast :=
  l.insertionSort (fun a b => a.cmg_clp_kwh ≤ b.cmg_clp_kwh)

def sortByHour (l : List PriceForecast) : List PriceForecast :=
  l.insertionSort (fun a b => a.hour ≤ b.hour)

/-- Accumulator of the chronological SOC-simulation loop in
`ArbitrageEngine.compute`. -/
structure WalkState where
  soc : ℚ
  totalRevenue : ℚ
  totalCost : ℚ
  slots : List DispatchSlot
deriving DecidableEq, Repr

/-- One iteration of the `for fc in sorted(forecasts, key=hour)` loop body.
`none` models the `ZeroDivisionError` of `power_kw / self.capacity_kwh` when
`capacity_kwh = 0`. -/
def stepSlot (cfg : EngineCfg) (chargeHours dischargeHours : Finset ℕ)
    (ws : WalkState) (fc : PriceForecast) : Option WalkState :=
  if fc.hour ∈ chargeHours ∧ ws.soc < cfg.max_soc_pct then
    if cfg.capacity_kwh = 0 then none else
    let energyNeeded := (cfg.max_soc_pct - ws.soc) / 100 * cfg.capacity_kwh
    let power := min cfg.max_power_kw energyNeeded
    let deltaSoc := power / cfg.capacity_kwh * 100
    let soc' := min cfg.max_soc_pct (ws.soc + deltaSoc)
    let revenue := -power * fc.cmg_clp_kwh / 1000
    some { soc := soc'
           totalRevenue := ws.totalRevenue
           totalCost := ws.totalCost + |revenue|
           slots := ws.slots ++ [{ hour := fc.hour
                                   action := .charge
                                   power_kw := pyRound power 1
                                   forecast := fc
                                   soc_before_pct := pyRound ws.soc 1
                                   soc_after_pct := pyRound soc' 1
                                   revenue_clp := (pyRoundInt (revenue * 1000) : ℚ) }] }
  else if fc.hour ∈ dischargeHours ∧ cfg.min_soc_pct < ws.soc then
    if cfg.capacity_kwh = 0 then none else
    let energyAvailable := (ws.soc - cfg.min_soc_pct) / 100 * cfg.capacity_kwh
    let powerBase := min cfg.max_power_kw energyAvailable
    let power := powerBase * cfg.efficiency
    let deltaSoc := powerBase / cfg.capacity_kwh * 100
    let soc' := max cfg.min_soc_pct (ws.soc - deltaSoc)
    let revenue := power * fc.cmg_clp_kwh / 1000
    some { soc := soc'
           totalRevenue := ws.totalRevenue + revenue
           totalCost := ws.totalCost
           slots := ws.slots ++ [{ hour := fc.hour
                                   action := .discharge
                                   power_kw := pyRound (-power) 1
                                   forecast := fc
                                   soc_before_pct := pyRound ws.soc 1
                                   soc_after_pct := pyRound soc' 1
                                   revenue_clp := (pyRoundInt (revenue * 1000) : ℚ) }] }
  else
    some { soc := ws.soc
           totalRevenue := ws.totalRevenue
           totalCost := ws.totalCost
           slots := ws.slots ++ [{ hour := fc.hour
                                   action := .hold
                                   power_kw := pyRound 0 1
                                   forecast := fc
                                   soc_before_pct := pyRound ws.soc 1
                                   soc_after_pct := pyRound ws.soc 1
                                   revenue_clp := (pyRoundInt 0 : ℚ) }] }

/-- `ArbitrageEngine._all_hold_schedule`. -/
def allHoldSchedule (cfg : EngineCfg) (forecasts : List PriceForecast)
    (currentSoc : ℚ) : ArbitrageSchedule :=
  { slots := (sortByHour forecasts).map fun fc =>
      { hour := fc.hour
        action := .hold
        power_kw := 0
        forecast := fc
        soc_before_pct := currentSoc
        soc_after_pct := currentSoc
        revenue_clp := 0 }
    projected_revenue_clp := 0
    projected_cost_clp := 0
    projected_net_clp := 0
    n_charge_hours := 0
    n_discharge_hours := 0
    capacity_kwh := cfg.capacity_kwh
    efficiency := cfg.efficiency }

/-- Charge candidate hours: cheapest `max_charge_hours` viable hours whose
price is strictly below the low threshold (before discharge-priority
removal). -/
def chargeCandidates (viable : List PriceForecast) (cfg : EngineCfg)
    (lowT : ℚ) : Finset ℕ :=
  ((((sortByPrice viable).take cfg.max_charge_hours).filter
      (fun f => f.cmg_clp_kwh < lowT)).map (·.hour)).toFinset

/-- Discharge candidate hours: most expensive `max_discharge_hours` viable
hours whose price is strictly above the high threshold.  Note the Python
slice `sorted_by_price[-n:]`, embedded by `sliceLastN`, returns the whole
list when `n = 0`. -/
def dischargeCandidates (viable : List PriceForecast) (cfg : EngineCfg)
    (highT : ℚ) : Finset ℕ :=
  (((sliceLastN (sortByPrice viable) cfg.max_discharge_hours).filter
      (fun f => highT < f.cmg_clp_kwh)).map (·.hour)).toFinset

/-- The viable hours: `[f for f in forecasts if f.confidence >= self.min_confidence]`. -/
def viableOf (cfg : EngineCfg) (forecasts : List PriceForecast) : List PriceForecast :=
  forecasts.filter (fun f => cfg.min_confidence ≤ f.confidence)

/-- `effective_spread = max(p90) - min(p10)` over viable hours, `0.0` when
none are viable. -/
def effectiveSpread (viable : List PriceForecast) : ℚ :=
  match viable with
  | [] => 0
  | f :: fs =>
    listMax1 f.cmg_p90 (fs.map (·.cmg_p90)) - listMin1 f.cmg_p10 (fs.map (·.cmg_p10))

/-- The trading path of `ArbitrageEngine.compute` (viable spread reached the
minimum): candidate selection followed by the chronological SOC simulation. -/
def computeTrade (cfg : EngineCfg) (viable forecasts : List PriceForecast)
    (currentSoc : ℚ) : Option ArbitrageSchedule := do
  let lowT ← priceThreshold viable false
  let highT ← priceThreshold viable true
  let dischargeHours := dischargeCandidates viable cfg highT
  let chargeHours := chargeCandidates viable cfg lowT \ dischargeHours
  let ws ← (sortByHour forecasts).foldlM
    (stepSlot cfg chargeHours dischargeHours) ⟨currentSoc, 0, 0, []⟩
  let net := ws.totalRevenue - ws.totalCost
  some { slots := ws.slots
         projected_revenue_clp := (pyRoundInt (ws.totalRevenue * 1000) : ℚ)
         projected_cost_clp := (pyRoundInt (ws.totalCost * 1000) : ℚ)
         projected_net_clp := (pyRoundInt (net * 1000) : ℚ)
         n_charge_hours := chargeHours.card
         n_discharge_hours := dischargeHours.card
         capacity_kwh := cfg.capacity_kwh
         efficiency := cfg.efficiency }

/-- `ArbitrageEngine.compute`.  Faithful embedding over `ℚ`; `none` marks the
executions on which the Python code raises (empty viable list reaching
`_price_threshold`, or a SOC update with `capacity_kwh = 0`). -/
def compute (cfg : EngineCfg) (forecasts : List PriceForecast)
    (currentSoc : ℚ) : Option ArbitrageSchedule :=
  if forecasts = [] then some ArbitrageSchedule.defaults
  else if effectiveSpread (viableOf cfg forecasts) < cfg.min_spread_clp then
    some (allHoldSchedule cfg forecasts currentSoc)
  else computeTrade cfg (viableOf cfg forecasts) forecasts currentSoc

/-! ## Generic lemmas about the SOC-simulation fold -/

theorem foldlM_option_isSome {α β : Type} (f : β → α → Option β)
    (hf : ∀ b a, (f b a).isSome) :
    ∀ (l : List α) (b : β), (List.foldlM f b l).isSome := by
  intro l
  induction l with
  | nil => intro b; simp [List.foldlM]
  | cons a t ih =>
    intro b
    have h := hf b a
    rcases hb : f b a with _ | b'
    · rw [hb] at h; simp at h
    · simpa [List.foldlM, hb] using ih b'

theorem foldlM_option_inv {α β : Type} (f : β → α → Option β)
    (motive : β → Prop)
    (hstep : ∀ b a b', motive b → f b a = some b' → motive b') :
    ∀ (l : List α) (b b' : β), motive b → List.foldlM f b l = some b' → motive b' := by
  intro l
  induction l with
  | nil => intro b b' hm h; simp [List.foldlM] at h; rwa [← h]
  | cons a t ih =>
    intro b b' hm h
    rcases hb : f b a with _ | b₁
    · rw [List.foldlM_cons, hb] at h; simp at h
    · rw [List.foldlM_cons, hb] at h
      exact ih b₁ b' (hstep b a b₁ hm hb) h

theorem stepSlot_isSome (cfg : EngineCfg) (cs ds : Finset ℕ)
    (hcap : cfg.capacity_kwh ≠ 0) (ws : WalkState) (fc : PriceForecast) :
    (stepSlot cfg cs ds ws fc).isSome := by
  unfold stepSlot
  split_ifs <;> simp_all

/-- Every branch of the loop body appends exactly one slot carrying the
processed forecast's hour. -/
theorem stepSlot_slots (cfg : EngineCfg) (cs ds : Finset ℕ)
    (ws : WalkState) (fc : PriceForecast) (ws' : WalkState)
    (h : stepSlot cfg cs ds ws fc = some ws') :
    ∃ sl, ws'.slots = ws.slots ++ [sl] ∧ sl.hour = fc.hour := by
  unfold stepSlot at h
  split_ifs at h
  all_goals first
    | exact Option.noConfusion h
    | (simp only [Option.some.injEq] at h; subst h; exact ⟨_, rfl, rfl⟩)

theorem walk_slots_hours (cfg : EngineCfg) (cs ds : Finset ℕ) :
    ∀ (l : List PriceForecast) (ws ws' : WalkState),
      List.foldlM (stepSlot cfg cs ds) ws l = some ws' →
      ws'.slots.map (·.hour) = ws.slots.map (·.hour) ++ l.map (·.hour) := by
  intro l
  induction l with
  | nil => intro ws ws' h; simp [List.foldlM] at h; simp [← h]
  | cons a t ih =>
    intro ws ws' h
    rcases hb : stepSlot cfg cs ds ws a with _ | ws₁
    · rw [List.foldlM_cons, hb] at h; simp at h
    · rw [List.foldlM_cons, hb] at h
      obtain ⟨sl, hsl, hhour⟩ := stepSlot_slots cfg cs ds ws a ws₁ hb
      have := ih ws₁ ws' h
      rw [this, hsl]
      simp [hhour]

theorem priceThreshold_cons (f : PriceForecast) (fs : List PriceForecast) (b : Bool) :
    (priceThreshold (f :: fs) b).isSome := by
  simp [priceThreshold]

theorem viableOf_ne_nil_of_spread (cfg : EngineCfg) (forecasts : List PriceForecast)
    (h1 : 0 < cfg.min_spread_clp)
    (hs : ¬effectiveSpread (viableOf cfg forecasts) < cfg.min_spread_clp) :
    viableOf cfg forecasts ≠ [] := by
  intro hv
  rw [hv] at hs
  exact hs (by simpa [effectiveSpread] using h1)

/-- `compute` on the trading path never returns `none` when the
configuration is non-degenerate. -/
theorem optionBindIsSome {α β : Type} (o : Option α) (f : α → Option β)
    (h : o.isSome) (hf : ∀ a, (f a).isSome) : (o.bind f).isSome := by
  cases o with
  | none => simp at h
  | some a => simpa using hf a

theorem computeTrade_isSome (cfg : EngineCfg) (f : PriceForecast)
    (fs forecasts : List PriceForecast) (soc : ℚ) (h2 : cfg.capacity_kwh ≠ 0) :
    (computeTrade cfg (f :: fs) forecasts soc).isSome := by
  unfold computeTrade priceThreshold
  simp only [Option.bind_eq_bind, Option.some_bind]
  exact optionBindIsSome _ _
    (foldlM_option_isSome _ (fun ws fc => stepSlot_isSome cfg _ _ h2 ws fc) _ _)
    (fun ws => by simp)

/-- **C2.** For every forecast list and every starting SOC,
`ArbitrageEngine.compute` returns a schedule (it cannot raise), provided the
configured minimum spread is positive and the capacity is nonzero (both hold
for the constructor defaults; with `min_spread_clp ≤ 0` or
`capacity_kwh = 0` the Python code can raise `ZeroDivisionError`, which the
embedding marks by `none`).  Moreover `compute([])` returns a schedule with
zero slots, zero projected revenue / cost / net and zero charge and
discharge hour counts. -/
theorem claim_C2 (cfg : EngineCfg) (h1 : 0 < cfg.min_spread_clp)
    (h2 : cfg.capacity_kwh ≠ 0) :
    (∀ (forecasts : List PriceForecast) (soc : ℚ),
      (compute cfg forecasts soc).isSome) ∧
    (∀ soc : ℚ, ∃ s : ArbitrageSchedule, compute cfg [] soc = some s ∧
      s.slots = [] ∧ s.projected_revenue_clp = 0 ∧ s.projected_cost_clp = 0 ∧
      s.projected_net_clp = 0 ∧ s.n_charge_hours = 0 ∧ s.n_discharge_hours = 0) := by
  constructor
  · intro forecasts soc
    unfold compute
    split_ifs with he hs
    · simp
    · simp
    · obtain ⟨f, fs, hffs⟩ :=
        List.exists_cons_of_ne_nil (viableOf_ne_nil_of_spread cfg forecasts h1 hs)
      rw [hffs]
      exact computeTrade_isSome cfg f fs forecasts soc h2
  · intro soc
    refine ⟨ArbitrageSchedule.defaults, ?_, rfl, rfl, rfl, rfl, rfl, rfl⟩
    simp [compute]

/-- Witness for C2 at the constructor-default configuration. -/
theorem claim_C2_witness :
    (compute EngineCfg.defaults
        ((List.range 24).map fun h => mkPriceForecastDefault h 50) 50).isSome ∧
    ∃ s : ArbitrageSchedule, compute EngineCfg.defaults [] 50 = some s ∧
      s.slots = [] ∧ s.projected_revenue_clp = 0 ∧ s.projected_cost_clp = 0 ∧
      s.projected_net_clp = 0 ∧ s.n_charge_hours = 0 ∧ s.n_discharge_hours = 0 := by
  have h := claim_C2 EngineCfg.defaults (by norm_num [EngineCfg.defaults])
    (by norm_num [EngineCfg.defaults])
  exact ⟨h.1 _ 50, h.2 50⟩

/-- Inversion of the trading path: names the thresholds, candidate sets and
final walk state of a successful `computeTrade` run. -/
theorem computeTrade_inv (cfg : EngineCfg) (viable forecasts : List PriceForecast)
    (soc : ℚ) (s : ArbitrageSchedule)
    (h : computeTrade cfg viable forecasts soc = some s) :
    ∃ (lowT highT : ℚ) (ws : WalkState),
      priceThreshold viable false = some lowT ∧
      priceThreshold viable true = some highT ∧
      List.foldlM
        (stepSlot cfg
          (chargeCandidates viable cfg lowT \ dischargeCandidates viable cfg highT)
          (dischargeCandidates viable cfg highT))
        ⟨soc, 0, 0, []⟩ (sortByHour forecasts) = some ws ∧
      s = { slots := ws.slots
            projected_revenue_clp := (pyRoundInt (ws.totalRevenue * 1000) : ℚ)
            projected_cost_clp := (pyRoundInt (ws.totalCost * 1000) : ℚ)
            projected_net_clp :=
              (pyRoundInt ((ws.totalRevenue - ws.totalCost) * 1000) : ℚ)
            n_charge_hours :=
              (chargeCandidates viable cfg lowT \ dischargeCandidates viable cfg highT).card
            n_discharge_hours := (dischargeCandidates viable cfg highT).card
            capacity_kwh := cfg.capacity_kwh
            efficiency := cfg.efficiency } := by
  unfold computeTrade at h
  rcases hlow : priceThreshold viable false with _ | lowT <;> rw [hlow] at h
  · simp at h
  rcases hhigh : priceThreshold viable true with _ | highT <;> rw [hhigh] at h
  · simp at h
  simp only [Option.bind_eq_bind, Option.some_bind] at h
  rcases hws : List.foldlM
      (stepSlot cfg
        (chargeCandidates viable cfg lowT \ dischargeCandidates viable cfg highT)
        (dischargeCandidates viable cfg highT))
      (⟨soc, 0, 0, []⟩ : WalkState) (sortByHour forecasts) with _ | ws <;>
    rw [hws] at h
  · simp at h
  refine ⟨lowT, highT, ws, ?_, ?_, ?_, ?_⟩
  · rfl
  · rfl
  · exact hws
  · simp only [Option.some_bind, Option.some.injEq] at h
    exact h.symm

/-- `compute` reduces to its trading path when the input is nonempty and the
spread reaches the minimum. -/
theorem compute_eq_trade (cfg : EngineCfg) (fcs : List PriceForecast) (soc : ℚ)
    (hne : ¬fcs = [])
    (hspread : ¬effectiveSpread (viableOf cfg fcs) < cfg.min_spread_clp) :
    compute cfg fcs soc = computeTrade cfg (viableOf cfg fcs) fcs soc := by
  unfold compute
  rw [if_neg hne, if_neg hspread]

/-- Evaluated form of the trading path, given the values of the thresholds
and of the simulation fold. -/
theorem computeTrade_eq_some (cfg : EngineCfg) (viable fcs : List PriceForecast)
    (soc lowT highT : ℚ) (ws : WalkState)
    (hlow : priceThreshold viable false = some lowT)
    (hhigh : priceThreshold viable true = some highT)
    (hws : List.foldlM
        (stepSlot cfg
          (chargeCandidates viable cfg lowT \ dischargeCandidates viable cfg highT)
          (dischargeCandidates viable cfg highT))
        ⟨soc, 0, 0, []⟩ (sortByHour fcs) = some ws) :
    computeTrade cfg viable fcs soc =
      some { slots := ws.slots
             projected_revenue_clp := (pyRoundInt (ws.totalRevenue * 1000) : ℚ)
             projected_cost_clp := (pyRoundInt (ws.totalCost * 1000) : ℚ)
             projected_net_clp :=
               (pyRoundInt ((ws.totalRevenue - ws.totalCost) * 1000) : ℚ)
             n_charge_hours :=
               (chargeCandidates viable cfg lowT \ dischargeCandidates viable cfg highT).card
             n_discharge_hours := (dischargeCandidates viable cfg highT).card
             capacity_kwh := cfg.capacity_kwh
             efficiency := cfg.efficiency } := by
  unfold computeTrade
  rw [hlow, hhigh]
  simp only [Option.bind_eq_bind, Option.some_bind]
  rw [hws]
  simp

/-- Rounding a difference versus differencing the roundings: off by at most
one unit. -/
theorem pyRoundInt_sub_err (a b : ℚ) :
    |(pyRoundInt (a - b) : ℚ) - ((pyRoundInt a : ℚ) - (pyRoundInt b : ℚ))| ≤ 1 := by
  have h1 := pyRoundInt_sub_le (a - b)
  have h2 := pyRoundInt_sub_le a
  have h3 := pyRoundInt_sub_le b
  set z : ℤ := pyRoundInt (a - b) - (pyRoundInt a - pyRoundInt b) with hzdef
  have hcast : (pyRoundInt (a - b) : ℚ) - ((pyRoundInt a : ℚ) - (pyRoundInt b : ℚ)) = (z : ℚ) := by
    rw [hzdef]; push_cast; ring
  rw [hcast]
  have hq : |(z : ℚ)| ≤ 3/2 := by
    rw [← hcast]
    rw [abs_le] at h1 h2 h3 ⊢
    constructor <;> linarith [h1.1, h1.2, h2.1, h2.2, h3.1, h3.2]
  have hzint : |z| ≤ 1 := by
    by_contra hcon
    push_neg at hcon
    have h2le : (2 : ℤ) ≤ |z| := hcon
    have h2q : (2 : ℚ) ≤ |(z : ℚ)| := by
      rw [← Int.cast_abs]
      exact_mod_cast h2le
    linarith
  have hfin : ((|z| : ℤ) : ℚ) ≤ 1 := by exact_mod_cast hzint
  rw [← Int.cast_abs]
  exact hfin

/-- **C5 (amended).** In every schedule returned by `compute`, the reported
`projected_net_clp` is the rounding of `(R - C) × 1000` where `R` and `C`
are the unrounded revenue and cost totals, whose independently rounded
values are reported as `projected_revenue_clp` and `projected_cost_clp`; the
reported net therefore differs from `projected_revenue_clp -
projected_cost_clp` by at most 1 CLP (exact equality can fail because the
three values are rounded separately). -/
theorem claim_C5 (cfg : EngineCfg) (forecasts : List PriceForecast) (soc : ℚ)
    (s : ArbitrageSchedule) (h : compute cfg forecasts soc = some s) :
    |s.projected_net_clp - (s.projected_revenue_clp - s.projected_cost_clp)| ≤ 1 := by
  unfold compute at h
  split_ifs at h with he hs
  · simp only [Option.some.injEq] at h
    rw [← h]
    norm_num [ArbitrageSchedule.defaults]
  · simp only [Option.some.injEq] at h
    rw [← h]
    norm_num [allHoldSchedule]
  · obtain ⟨lowT, highT, ws, _, _, _, hrec⟩ :=
      computeTrade_inv cfg _ forecasts soc s h
    rw [hrec]
    have hmul : (ws.totalRevenue - ws.totalCost) * 1000 =
        ws.totalRevenue * 1000 - ws.totalCost * 1000 := by ring
    simpa [hmul] using
      pyRoundInt_sub_err (ws.totalRevenue * 1000) (ws.totalCost * 1000)

/-- Input exhibiting the 1-CLP rounding discrepancy for C5: two cheap hours
at 0.375 and two expensive hours at 101, all values chosen so the Python
float trace is exact (the claim quantifies over every forecast list, so a
four-hour list is a legitimate input). -/
def fcsC5 : List PriceForecast :=
  [mkPriceForecast 0 0.375 1 "exponential_smoothing" 0 0,
   mkPriceForecast 1 0.375 1 "exponential_smoothing" 0 0,
   mkPriceForecast 2 101 1 "exponential_smoothing" 0 0,
   mkPriceForecast 3 101 1 "exponential_smoothing" 0 0]

def cfgC5 : EngineCfg :=
  { capacity_kwh := 1000
    max_power_kw := 500
    min_soc_pct := 0
    max_soc_pct := 100
    efficiency := 0.625
    max_charge_hours := 1
    max_discharge_hours := 1
    min_confidence := 0.4
    min_spread_clp := 30 }

/-- The simulation fold of `compute cfgC5 fcsC5 50` (thresholds already
evaluated: low `817/32`, high `2427/32`). -/
def foldC5 : Option WalkState :=
  List.foldlM
    (stepSlot cfgC5
      (chargeCandidates (viableOf cfgC5 fcsC5) cfgC5 (817/32) \
        dischargeCandidates (viableOf cfgC5 fcsC5) cfgC5 (2427/32))
      (dischargeCandidates (viableOf cfgC5 fcsC5) cfgC5 (2427/32)))
    ⟨50, 0, 0, []⟩ (sortByHour fcsC5)

set_option maxRecDepth 2000 in
set_option maxHeartbeats 2000000 in
theorem cexC5_spread : ¬effectiveSpread (viableOf cfgC5 fcsC5) < cfgC5.min_spread_clp := by
  with_unfolding_all decide

theorem cexC5_viable : viableOf cfgC5 fcsC5 = fcsC5 := by
  unfold viableOf
  rw [List.filter_eq_self]
  intro f hf
  fin_cases hf <;> with_unfolding_all decide

set_option maxRecDepth 2000 in
set_option maxHeartbeats 2000000 in
theorem cexC5_var : ratSqrt (648025/256) = 805/16 := by
  with_unfolding_all decide

theorem cexC5_threshold (b : Bool) :
    priceThreshold (viableOf cfgC5 fcsC5) b =
      some (if b then (2427/32 : ℚ) else 817/32) := by
  rw [cexC5_viable]
  show some (thresholdOfPrices (fcsC5.map (·.cmg_clp_kwh)) b) = _
  have hp : fcsC5.map (·.cmg_clp_kwh) = [3/8, 3/8, 101, 101] := by
    with_unfolding_all decide
  rw [hp]
  have hmean : meanOfPrices [3/8, 3/8, 101, 101] = 811/16 := by
    norm_num [meanOfPrices]
  have hvar : popVariance [3/8, 3/8, 101, 101] = 648025/256 := by
    norm_num [popVariance, hmean]
  unfold thresholdOfPrices
  rw [hmean, hvar, cexC5_var]
  cases b <;> norm_num

theorem cexC5_low : priceThreshold (viableOf cfgC5 fcsC5) false = some (817/32) := by
  simpa using cexC5_threshold false

theorem cexC5_high : priceThreshold (viableOf cfgC5 fcsC5) true = some (2427/32) := by
  simpa using cexC5_threshold true

set_option maxRecDepth 2000 in
set_option maxHeartbeats 2000000 in
theorem cexC5_fold_rev : foldC5.map (·.totalRevenue) = some (505/16) := by
  with_unfolding_all decide

set_option maxRecDepth 2000 in
set_option maxHeartbeats 2000000 in
theorem cexC5_fold_cost : foldC5.map (·.totalCost) = some (3/16) := by
  with_unfolding_all decide

set_option maxRecDepth 2000 in
set_option maxHeartbeats 2000000 in
/-- **C5 counterexample.** At this input the engine reports
`projected_revenue_clp = 31562`, `projected_cost_clp = 188` and
`projected_net_clp = 31375`, but `31562 - 188 = 31374`: the claimed identity
`projected_net_clp = projected_revenue_clp - projected_cost_clp` is false for
the reported (rounded) fields.  (All float operations of the Python trace are
exact at this input, so the rational evaluation coincides with the float
one.) -/
theorem claim_C5_counterexample :
    (compute cfgC5 fcsC5 50).map (·.projected_revenue_clp) = some 31562 ∧
    (compute cfgC5 fcsC5 50).map (·.projected_cost_clp) = some 188 ∧
    (compute cfgC5 fcsC5 50).map (·.projected_net_clp) = some 31375 ∧
    (31375 : ℚ) ≠ 31562 - 188 := by
  have hne : ¬fcsC5 = [] := by simp [fcsC5]
  obtain ⟨ws, hws⟩ := Option.isSome_iff_exists.mp
    (foldlM_option_isSome
      (stepSlot cfgC5
        (chargeCandidates (viableOf cfgC5 fcsC5) cfgC5 (817/32) \
          dischargeCandidates (viableOf cfgC5 fcsC5) cfgC5 (2427/32))
        (dischargeCandidates (viableOf cfgC5 fcsC5) cfgC5 (2427/32)))
      (fun b a => stepSlot_isSome cfgC5 _ _ (by norm_num [cfgC5]) b a)
      (sortByHour fcsC5) ⟨50, 0, 0, []⟩)
  have heq := compute_eq_trade cfgC5 fcsC5 50 hne cexC5_spread
  rw [computeTrade_eq_some cfgC5 _ fcsC5 50 (817/32) (2427/32) ws cexC5_low cexC5_high hws] at heq
  have hrev : ws.totalRevenue = 505/16 := by
    have hm := cexC5_fold_rev
    unfold foldC5 at hm
    rw [hws] at hm
    simpa using hm
  have hcost : ws.totalCost = 3/16 := by
    have hm := cexC5_fold_cost
    unfold foldC5 at hm
    rw [hws] at hm
    simpa using hm
  have hv1 : (pyRoundInt ((505/16 : ℚ) * 1000) : ℚ) = 31562 := by
    norm_num
    rw [pyRoundInt]
    norm_num
  have hv2 : (pyRoundInt ((3/16 : ℚ) * 1000) : ℚ) = 188 := by
    norm_num
    rw [pyRoundInt]
    norm_num
  have hv3 : (pyRoundInt (((505/16 : ℚ) - 3/16) * 1000) : ℚ) = 31375 := by
    norm_num
    rw [pyRoundInt]
    norm_num
  rw [heq]
  refine ⟨?_, ?_, ?_, ?_⟩
  · simp only [Option.map_some']
    rw [hrev, hv1]
  · simp only [Option.map_some']
    rw [hcost, hv2]
  · simp only [Option.map_some']
    rw [hrev, hcost, hv3]
  · norm_num

/-- Witness for C5: the amended bound instantiated at the empty-forecast
input. -/
theorem claim_C5_witness :
    |ArbitrageSchedule.defaults.projected_net_clp -
      (ArbitrageSchedule.defaults.projected_revenue_clp -
        ArbitrageSchedule.defaults.projected_cost_clp)| ≤ 1 :=
  claim_C5 EngineCfg.defaults [] 0 ArbitrageSchedule.defaults (by simp [compute])

/-! ## C6: flat prices give an all-hold plan -/

theorem sliceLastN_subset (l : List α) (n : ℕ) : sliceLastN l n ⊆ l := by
  unfold sliceLastN
  split_ifs
  · exact fun x hx => hx
  · exact List.drop_subset _ l

theorem mem_sortByPrice {f : PriceForecast} {l : List PriceForecast} :
    f ∈ sortByPrice l ↔ f ∈ l :=
  (List.perm_insertionSort _ l).mem_iff

theorem mem_sortByHour {f : PriceForecast} {l : List PriceForecast} :
    f ∈ sortByHour l ↔ f ∈ l :=
  (List.perm_insertionSort _ l).mem_iff

theorem sortByHour_perm (l : List PriceForecast) : List.Perm (sortByHour l) l :=
  List.perm_insertionSort _ l

theorem flat_sum {P : ℚ} : ∀ {l : List ℚ}, (∀ p ∈ l, p = P) →
    l.sum = (l.length : ℚ) * P := by
  intro l
  induction l with
  | nil => intro _; simp
  | cons a t ih =>
    intro h
    have ha : a = P := h a (by simp)
    have ht := ih (fun p hp => h p (by simp [hp]))
    simp only [List.sum_cons, List.length_cons, ha, ht]
    push_cast
    ring

/-- On a flat price list both thresholds collapse to the common price. -/
theorem thresholdOfPrices_flat (P : ℚ) (prices : List ℚ) (hne : prices ≠ [])
    (h : ∀ p ∈ prices, p = P) (b : Bool) : thresholdOfPrices prices b = P := by
  have hlen : (prices.length : ℚ) ≠ 0 := by
    have : prices.length ≠ 0 := fun hc => hne (List.length_eq_zero.mp hc)
    exact_mod_cast this
  have hmean : meanOfPrices prices = P := by
    unfold meanOfPrices
    rw [flat_sum h, mul_comm, mul_div_assoc, div_self hlen, mul_one]
  have hvar : popVariance prices = 0 := by
    unfold popVariance
    rw [hmean]
    have hz : (prices.map (fun p => (p - P) ^ 2)).sum = 0 := by
      apply List.sum_eq_zero
      intro x hx
      obtain ⟨p, hp, hpx⟩ := List.mem_map.mp hx
      rw [← hpx, h p hp]
      ring
    rw [hz, zero_div]
  unfold thresholdOfPrices
  rw [hmean, hvar, ratSqrt_zero]
  cases b <;> norm_num

theorem chargeCandidates_flat (P : ℚ) (viable : List PriceForecast)
    (cfg : EngineCfg) (h : ∀ f ∈ viable, f.cmg_clp_kwh = P) :
    chargeCandidates viable cfg P = ∅ := by
  unfold chargeCandidates
  have hfil : ((sortByPrice viable).take cfg.max_charge_hours).filter
      (fun f => f.cmg_clp_kwh < P) = [] := by
    rw [List.filter_eq_nil_iff]
    intro f hf
    have hmem : f ∈ viable := mem_sortByPrice.mp (List.take_subset _ _ hf)
    simp [h f hmem]
  rw [hfil]
  rfl

theorem dischargeCandidates_flat (P : ℚ) (viable : List PriceForecast)
    (cfg : EngineCfg) (h : ∀ f ∈ viable, f.cmg_clp_kwh = P) :
    dischargeCandidates viable cfg P = ∅ := by
  unfold dischargeCandidates
  have hfil : (sliceLastN (sortByPrice viable) cfg.max_discharge_hours).filter
      (fun f => P < f.cmg_clp_kwh) = [] := by
    rw [List.filter_eq_nil_iff]
    intro f hf
    have hmem : f ∈ viable := mem_sortByPrice.mp (sliceLastN_subset _ _ hf)
    simp [h f hmem]
  rw [hfil]
  rfl

/-- With both candidate sets empty every simulation step holds. -/
theorem stepSlot_empty_sets (cfg : EngineCfg) (ws : WalkState) (fc : PriceForecast) :
    stepSlot cfg ∅ ∅ ws fc =
      some { soc := ws.soc
             totalRevenue := ws.totalRevenue
             totalCost := ws.totalCost
             slots := ws.slots ++ [{ hour := fc.hour
                                     action := .hold
                                     power_kw := pyRound 0 1
                                     forecast := fc
                                     soc_before_pct := pyRound ws.soc 1
                                     soc_after_pct := pyRound ws.soc 1
                                     revenue_clp := (pyRoundInt 0 : ℚ) }] } := by
  unfold stepSlot
  rw [if_neg (by simp), if_neg (by simp)]

/-- A slot is an inert hold slot: held action, zero power, SOC unchanged. -/
def HoldSlot (sl : DispatchSlot) : Prop :=
  sl.action = .hold ∧ sl.power_kw = 0 ∧ sl.soc_after_pct = sl.soc_before_pct

theorem walk_empty_sets (cfg : EngineCfg) (soc : ℚ) :
    ∀ (l : List PriceForecast) (ws ws' : WalkState),
      ws.soc = soc → ws.totalRevenue = 0 → ws.totalCost = 0 →
      (∀ sl ∈ ws.slots, HoldSlot sl) →
      List.foldlM (stepSlot cfg ∅ ∅) ws l = some ws' →
      ws'.soc = soc ∧ ws'.totalRevenue = 0 ∧ ws'.totalCost = 0 ∧
        ∀ sl ∈ ws'.slots, HoldSlot sl := by
  intro l
  induction l with
  | nil =>
    intro ws ws' h1 h2 h3 h4 h
    simp [List.foldlM] at h
    rw [← h]
    exact ⟨h1, h2, h3, h4⟩
  | cons a t ih =>
    intro ws ws' h1 h2 h3 h4 h
    rw [List.foldlM_cons, stepSlot_empty_sets] at h
    simp only [Option.bind_eq_bind, Option.some_bind] at h
    refine ih { soc := ws.soc
                totalRevenue := ws.totalRevenue
                totalCost := ws.totalCost
                slots := ws.slots ++ [{ hour := a.hour
                                        action := .hold
                                        power_kw := pyRound 0 1
                                        forecast := a
                                        soc_before_pct := pyRound ws.soc 1
                                        soc_after_pct := pyRound ws.soc 1
                                        revenue_clp := (pyRoundInt 0 : ℚ) }] }
      ws' h1 h2 h3 ?_ h
    intro sl hsl
    rcases List.mem_append.mp hsl with hl | hr
    · exact h4 sl hl
    · have : sl = { hour := a.hour
                    action := .hold
                    power_kw := pyRound 0 1
                    forecast := a
                    soc_before_pct := pyRound ws.soc 1
                    soc_after_pct := pyRound ws.soc 1
                    revenue_clp := (pyRoundInt 0 : ℚ) } := by simpa using hr
      rw [this]
      exact ⟨rfl, pyRound_zero 1, rfl⟩

/-- **C6.** On every nonempty forecast list with one uniform point price
(flat prices) and any starting SOC, `compute` returns an all-hold plan:
every slot holds with zero power and unchanged SOC, the projected net is
`≤ 0` (it is exactly 0) and there are zero discharge hours.  (Positivity of
the configured minimum spread, true of the defaults, keeps the Python code
from raising on an all-low-confidence input.) -/
theorem claim_C6 (cfg : EngineCfg) (forecasts : List PriceForecast)
    (soc P : ℚ) (hne : forecasts ≠ [])
    (hflat : ∀ f ∈ forecasts, f.cmg_clp_kwh = P)
    (hms : 0 < cfg.min_spread_clp) :
    ∃ s : ArbitrageSchedule, compute cfg forecasts soc = some s ∧
      (∀ sl ∈ s.slots, sl.action = .hold ∧ sl.power_kw = 0 ∧
        sl.soc_after_pct = sl.soc_before_pct) ∧
      s.projected_net_clp ≤ 0 ∧ s.n_discharge_hours = 0 := by
  unfold compute
  rw [if_neg hne]
  split_ifs with hs
  · refine ⟨allHoldSchedule cfg forecasts soc, rfl, ?_, le_refl 0, rfl⟩
    intro sl hsl
    unfold allHoldSchedule at hsl
    simp only [List.mem_map] at hsl
    obtain ⟨fc, _, hfc⟩ := hsl
    rw [← hfc]
    exact ⟨rfl, rfl, rfl⟩
  · -- trading path with empty candidate sets
    have hvne : viableOf cfg forecasts ≠ [] :=
      viableOf_ne_nil_of_spread cfg forecasts hms hs
    obtain ⟨f0, fs0, hffs⟩ := List.exists_cons_of_ne_nil hvne
    have hvflat : ∀ f ∈ viableOf cfg forecasts, f.cmg_clp_kwh = P := by
      intro f hf
      exact hflat f (List.mem_of_mem_filter hf)
    have hpune : (viableOf cfg forecasts).map (·.cmg_clp_kwh) ≠ [] := by
      simp [hffs]
    have hpflat : ∀ p ∈ (viableOf cfg forecasts).map (·.cmg_clp_kwh), p = P := by
      intro p hp
      obtain ⟨f, hf, hfp⟩ := List.mem_map.mp hp
      rw [← hfp]
      exact hvflat f hf
    have hthr : ∀ b, priceThreshold (viableOf cfg forecasts) b = some P := by
      intro b
      rw [hffs]
      show some (thresholdOfPrices (((f0 :: fs0)).map (·.cmg_clp_kwh)) b) = some P
      rw [← hffs]
      rw [thresholdOfPrices_flat P _ hpune hpflat]
    have hcc : chargeCandidates (viableOf cfg forecasts) cfg P = ∅ :=
      chargeCandidates_flat P _ cfg hvflat
    have hdc : dischargeCandidates (viableOf cfg forecasts) cfg P = ∅ :=
      dischargeCandidates_flat P _ cfg hvflat
    obtain ⟨ws, hws⟩ := Option.isSome_iff_exists.mp
      (foldlM_option_isSome (stepSlot cfg ∅ ∅)
        (fun b a => by rw [stepSlot_empty_sets]; rfl)
        (sortByHour forecasts) ⟨soc, 0, 0, []⟩)
    have hwalk := walk_empty_sets cfg soc (sortByHour forecasts)
      ⟨soc, 0, 0, []⟩ ws rfl rfl rfl (by intro sl hsl; simp at hsl) hws
    have htr : computeTrade cfg (viableOf cfg forecasts) forecasts soc =
        some { slots := ws.slots
               projected_revenue_clp := (pyRoundInt (ws.totalRevenue * 1000) : ℚ)
               projected_cost_clp := (pyRoundInt (ws.totalCost * 1000) : ℚ)
               projected_net_clp :=
                 (pyRoundInt ((ws.totalRevenue - ws.totalCost) * 1000) : ℚ)
               n_charge_hours :=
                 (chargeCandidates (viableOf cfg forecasts) cfg P \
                   dischargeCandidates (viableOf cfg forecasts) cfg P).card
               n_discharge_hours :=
                 (dischargeCandidates (viableOf cfg forecasts) cfg P).card
               capacity_kwh := cfg.capacity_kwh
               efficiency := cfg.efficiency } := by
      apply computeTrade_eq_some cfg _ forecasts soc P P ws (hthr false) (hthr true)
      rw [hcc, hdc]
      simpa [hcc, hdc] using hws
    refine ⟨_, htr, ?_, ?_, ?_⟩
    · intro sl hsl
      exact hwalk.2.2.2 sl hsl
    · simp only [hwalk.2.1, hwalk.2.2.1]
      norm_num [pyRoundInt_zero]
    · simp [hdc]

/-- Witness for C6: a three-hour flat forecast at price 50 under the default
configuration. -/
theorem claim_C6_witness :
    ∃ s : ArbitrageSchedule,
      compute EngineCfg.defaults
        [mkPriceForecastDefault 0 50, mkPriceForecastDefault 1 50,
         mkPriceForecastDefault 2 50] 40 = some s ∧
      (∀ sl ∈ s.slots, sl.action = .hold ∧ sl.power_kw = 0 ∧
        sl.soc_after_pct = sl.soc_before_pct) ∧
      s.projected_net_clp ≤ 0 ∧ s.n_discharge_hours = 0 :=
  claim_C6 EngineCfg.defaults _ 40 50 (by simp)
    (by intro f hf; fin_cases hf <;> rfl)
    (by norm_num [EngineCfg.defaults])

/-! ## Shared walk invariant: SOC bounds, power signs, candidate membership -/

/-- Per-slot invariant established by the simulation loop: recorded power has
the sign of the action, the hour of an acting slot lies in its candidate
set, and the recorded SOC stays within the rounded safety bounds. -/
def SlotInv (cfg : EngineCfg) (cs ds : Finset ℕ) (sl : DispatchSlot) : Prop :=
  (sl.action = .charge → sl.hour ∈ cs ∧ 0 ≤ sl.power_kw) ∧
  (sl.action = .discharge → sl.hour ∈ ds ∧ (0 ≤ cfg.efficiency → sl.power_kw ≤ 0)) ∧
  (sl.action = .hold → sl.power_kw = 0) ∧
  pyRound cfg.min_soc_pct 1 ≤ sl.soc_after_pct ∧
  sl.soc_after_pct ≤ pyRound cfg.max_soc_pct 1

theorem stepSlot_inv (cfg : EngineCfg) (cs ds : Finset ℕ)
    (hmp : 0 ≤ cfg.max_power_kw) (hcap : 0 < cfg.capacity_kwh)
    (hmm : cfg.min_soc_pct ≤ cfg.max_soc_pct)
    (ws : WalkState) (fc : PriceForecast) (ws' : WalkState)
    (hlo : cfg.min_soc_pct ≤ ws.soc) (hhi : ws.soc ≤ cfg.max_soc_pct)
    (h : stepSlot cfg cs ds ws fc = some ws') :
    cfg.min_soc_pct ≤ ws'.soc ∧ ws'.soc ≤ cfg.max_soc_pct ∧
    ∃ sl, ws'.slots = ws.slots ++ [sl] ∧ SlotInv cfg cs ds sl := by
  unfold stepSlot at h
  by_cases hc : fc.hour ∈ cs ∧ ws.soc < cfg.max_soc_pct
  · rw [if_pos hc, if_neg (ne_of_gt hcap)] at h
    simp only [Option.some.injEq] at h
    subst h
    have hen : 0 ≤ (cfg.max_soc_pct - ws.soc) / 100 * cfg.capacity_kwh := by
      have : 0 ≤ cfg.max_soc_pct - ws.soc := by linarith [hc.2]
      positivity
    have hpw : 0 ≤ min cfg.max_power_kw ((cfg.max_soc_pct - ws.soc) / 100 * cfg.capacity_kwh) :=
      le_min hmp hen
    have hds : 0 ≤ min cfg.max_power_kw ((cfg.max_soc_pct - ws.soc) / 100 * cfg.capacity_kwh) /
        cfg.capacity_kwh * 100 := by positivity
    refine ⟨?_, ?_, _, rfl, ?_, ?_, ?_, ?_, ?_⟩
    · simp only [le_min_iff]
      constructor <;> linarith
    · exact min_le_left _ _
    · intro _
      exact ⟨hc.1, pyRound_nonneg 1 hpw⟩
    · intro hcon; exact absurd hcon (by simp)
    · intro hcon; exact absurd hcon (by simp)
    · exact pyRound_mono 1 (by simp only [le_min_iff]; constructor <;> linarith)
    · exact pyRound_mono 1 (min_le_left _ _)
  · rw [if_neg hc] at h
    by_cases hd : fc.hour ∈ ds ∧ cfg.min_soc_pct < ws.soc
    · rw [if_pos hd, if_neg (ne_of_gt hcap)] at h
      simp only [Option.some.injEq] at h
      subst h
      have hea : 0 ≤ (ws.soc - cfg.min_soc_pct) / 100 * cfg.capacity_kwh := by
        have : 0 ≤ ws.soc - cfg.min_soc_pct := by linarith [hd.2]
        positivity
      have hpb : 0 ≤ min cfg.max_power_kw ((ws.soc - cfg.min_soc_pct) / 100 * cfg.capacity_kwh) :=
        le_min hmp hea
      have hds : 0 ≤ min cfg.max_power_kw ((ws.soc - cfg.min_soc_pct) / 100 * cfg.capacity_kwh) /
          cfg.capacity_kwh * 100 := by positivity
      refine ⟨?_, ?_, _, rfl, ?_, ?_, ?_, ?_, ?_⟩
      · exact le_max_left _ _
      · simp only [max_le_iff]
        constructor
        · exact hmm
        · linarith
      · intro hcon; exact absurd hcon (by simp)
      · intro _
        refine ⟨hd.1, fun heff => ?_⟩
        have hneg : -(min cfg.max_power_kw
            ((ws.soc - cfg.min_soc_pct) / 100 * cfg.capacity_kwh) * cfg.efficiency) ≤ 0 := by
          have := mul_nonneg hpb heff
          linarith
        exact pyRound_nonpos 1 hneg
      · intro hcon; exact absurd hcon (by simp)
      · exact pyRound_mono 1 (le_max_left _ _)
      · refine pyRound_mono 1 ?_
        simp only [max_le_iff]
        constructor
        · exact hmm
        · linarith
    · rw [if_neg hd] at h
      simp only [Option.some.injEq] at h
      subst h
      refine ⟨hlo, hhi, _, rfl, ?_, ?_, ?_, ?_, ?_⟩
      · intro hcon; exact absurd hcon (by simp)
      · intro hcon; exact absurd hcon (by simp)
      · intro _; exact pyRound_zero 1
      · exact pyRound_mono 1 hlo
      · exact pyRound_mono 1 hhi

/-- The simulation fold keeps the SOC in bounds and every produced slot
satisfies `SlotInv`. -/
theorem walk_inv (cfg : EngineCfg) (cs ds : Finset ℕ)
    (hmp : 0 ≤ cfg.max_power_kw) (hcap : 0 < cfg.capacity_kwh)
    (hmm : cfg.min_soc_pct ≤ cfg.max_soc_pct) :
    ∀ (l : List PriceForecast) (ws ws' : WalkState),
      cfg.min_soc_pct ≤ ws.soc → ws.soc ≤ cfg.max_soc_pct →
      (∀ sl ∈ ws.slots, SlotInv cfg cs ds sl) →
      List.foldlM (stepSlot cfg cs ds) ws l = some ws' →
      cfg.min_soc_pct ≤ ws'.soc ∧ ws'.soc ≤ cfg.max_soc_pct ∧
        ∀ sl ∈ ws'.slots, SlotInv cfg cs ds sl := by
  intro l
  induction l with
  | nil =>
    intro ws ws' hlo hhi hsl h
    simp [List.foldlM] at h
    rw [← h]
    exact ⟨hlo, hhi, hsl⟩
  | cons a t ih =>
    intro ws ws' hlo hhi hsl h
    rcases hb : stepSlot cfg cs ds ws a with _ | ws₁
    · rw [List.foldlM_cons, hb] at h; simp at h
    · rw [List.foldlM_cons, hb] at h
      simp only [Option.bind_eq_bind, Option.some_bind] at h
      obtain ⟨hlo₁, hhi₁, sl, hsl₁, hinv⟩ :=
        stepSlot_inv cfg cs ds hmp hcap hmm ws a ws₁ hlo hhi hb
      refine ih ws₁ ws' hlo₁ hhi₁ ?_ h
      intro x hx
      rw [hsl₁] at hx
      rcases List.mem_append.mp hx with hxl | hxr
      · exact hsl x hxl
      · rw [List.mem_singleton.mp hxr]
        exact hinv

/-! ## C7 (amended): power signs per action -/

theorem allHoldSchedule_slots (cfg : EngineCfg) (forecasts : List PriceForecast)
    (soc : ℚ) (sl : DispatchSlot)
    (h : sl ∈ (allHoldSchedule cfg forecasts soc).slots) :
    sl.action = .hold ∧ sl.power_kw = 0 ∧
    sl.soc_before_pct = soc ∧ sl.soc_after_pct = soc := by
  unfold allHoldSchedule at h
  simp only [List.mem_map] at h
  obtain ⟨fc, _, hfc⟩ := h
  rw [← hfc]
  exact ⟨rfl, rfl, rfl, rfl⟩

/-- **C7 (amended).** In every schedule returned by `compute` under a
configuration with positive max power, efficiency and capacity and a
starting SOC within the safety bounds: every `charge` slot has
`power_kw ≥ 0`, every `discharge` slot has `power_kw ≤ 0`, and every `hold`
slot has `power_kw = 0`.  (The original strict claim is false: the recorded
power is `round(power, 1)`, so an acting slot whose computed power is below
0.05 kW reports `power_kw = 0.0` — see the counterexample.) -/
theorem claim_C7 (cfg : EngineCfg) (forecasts : List PriceForecast)
    (soc : ℚ) (s : ArbitrageSchedule)
    (hmp : 0 < cfg.max_power_kw) (heff : 0 < cfg.efficiency)
    (hcap : 0 < cfg.capacity_kwh) (hmm : cfg.min_soc_pct ≤ cfg.max_soc_pct)
    (hlo : cfg.min_soc_pct ≤ soc) (hhi : soc ≤ cfg.max_soc_pct)
    (h : compute cfg forecasts soc = some s) :
    ∀ sl ∈ s.slots,
      (sl.action = .charge → 0 ≤ sl.power_kw) ∧
      (sl.action = .discharge → sl.power_kw ≤ 0) ∧
      (sl.action = .hold → sl.power_kw = 0) := by
  unfold compute at h
  split_ifs at h with he hs
  · simp only [Option.some.injEq] at h
    rw [← h]
    intro sl hsl
    simp [ArbitrageSchedule.defaults] at hsl
  · simp only [Option.some.injEq] at h
    rw [← h]
    intro sl hsl
    obtain ⟨ha, hp, _, _⟩ := allHoldSchedule_slots cfg forecasts soc sl hsl
    refine ⟨?_, ?_, fun _ => hp⟩
    · intro hcon; rw [ha] at hcon; exact absurd hcon (by simp)
    · intro hcon; rw [ha] at hcon; exact absurd hcon (by simp)
  · obtain ⟨lowT, highT, ws, _, _, hws, hrec⟩ :=
      computeTrade_inv cfg _ forecasts soc s h
    obtain ⟨_, _, hinv⟩ := walk_inv cfg _ _ (le_of_lt hmp) hcap hmm
      (sortByHour forecasts) ⟨soc, 0, 0, []⟩ ws hlo hhi
      (by intro sl hsl; simp at hsl) hws
    intro sl hsl
    rw [hrec] at hsl
    obtain ⟨hch, hdis, hhold, _, _⟩ := hinv sl hsl
    exact ⟨fun ha => (hch ha).2, fun ha => (hdis ha).2 (le_of_lt heff),
      fun ha => hhold ha⟩

/-- The hour-0 hold slot of the all-hold schedule used as the C7 witness
input. -/
def slotC7w : DispatchSlot :=
  { hour := 0, action := .hold, power_kw := 0,
    forecast := mkPriceForecastDefault 0 50,
    soc_before_pct := 40, soc_after_pct := 40, revenue_clp := 0 }

set_option maxRecDepth 2000 in
/-- Witness for C7: the default engine on a flat three-hour forecast,
instantiated at its hour-0 slot. -/
theorem claim_C7_witness :
    (slotC7w.action = .charge → 0 ≤ slotC7w.power_kw) ∧
    (slotC7w.action = .discharge → slotC7w.power_kw ≤ 0) ∧
    (slotC7w.action = .hold → slotC7w.power_kw = 0) := by
  refine claim_C7 EngineCfg.defaults
    [mkPriceForecastDefault 0 50, mkPriceForecastDefault 1 50,
     mkPriceForecastDefault 2 50] 40
    (allHoldSchedule EngineCfg.defaults
      [mkPriceForecastDefault 0 50, mkPriceForecastDefault 1 50,
       mkPriceForecastDefault 2 50] 40)
    (by norm_num [EngineCfg.defaults]) (by norm_num [EngineCfg.defaults])
    (by norm_num [EngineCfg.defaults]) (by norm_num [EngineCfg.defaults])
    (by norm_num [EngineCfg.defaults]) (by norm_num [EngineCfg.defaults]) ?_
    slotC7w ?_
  · unfold compute
    rw [if_neg (by simp), if_pos (by with_unfolding_all decide)]
  · with_unfolding_all decide

/-! ## C3: SOC bounds and count bounds -/

theorem countP_mem_le_card (l : List ℕ) (s : Finset ℕ) (hl : l.Nodup) :
    l.countP (fun h => decide (h ∈ s)) ≤ s.card := by
  rw [List.countP_eq_length_filter]
  have hnd : (l.filter (fun h => decide (h ∈ s))).Nodup := List.Nodup.filter _ hl
  rw [← List.toFinset_card_of_nodup hnd]
  apply Finset.card_le_card
  intro x hx
  rw [List.mem_toFinset] at hx
  have := List.of_mem_filter hx
  simpa using this

theorem slots_countP_le_card (slots : List DispatchSlot) (t : Finset ℕ)
    (p : DispatchSlot → Bool)
    (hnodup : (slots.map (·.hour)).Nodup)
    (hmem : ∀ sl ∈ slots, p sl = true → sl.hour ∈ t) :
    slots.countP p ≤ t.card := by
  calc slots.countP p ≤ slots.countP (fun sl => decide (sl.hour ∈ t)) := by
        apply List.countP_mono_left
        intro sl hsl hp
        simpa using hmem sl hsl hp
    _ = (slots.map (·.hour)).countP (fun h => decide (h ∈ t)) := by
        rw [List.countP_map]
        rfl
    _ ≤ t.card := countP_mem_le_card _ t hnodup

theorem chargeCandidates_card_le (viable : List PriceForecast) (cfg : EngineCfg)
    (lowT : ℚ) : (chargeCandidates viable cfg lowT).card ≤ cfg.max_charge_hours := by
  unfold chargeCandidates
  calc ((((sortByPrice viable).take cfg.max_charge_hours).filter
          (fun f => f.cmg_clp_kwh < lowT)).map (·.hour)).toFinset.card
      ≤ ((((sortByPrice viable).take cfg.max_charge_hours).filter
          (fun f => f.cmg_clp_kwh < lowT)).map (·.hour)).length := List.toFinset_card_le _
    _ = (((sortByPrice viable).take cfg.max_charge_hours).filter
          (fun f => f.cmg_clp_kwh < lowT)).length := List.length_map _ _
    _ ≤ ((sortByPrice viable).take cfg.max_charge_hours).length :=
        List.length_filter_le _ _
    _ ≤ cfg.max_charge_hours := by rw [List.length_take]; omega

theorem dischargeCandidates_card_le (viable : List PriceForecast) (cfg : EngineCfg)
    (highT : ℚ) (hmd : 1 ≤ cfg.max_discharge_hours) :
    (dischargeCandidates viable cfg highT).card ≤ cfg.max_discharge_hours := by
  unfold dischargeCandidates
  have hlen : (sliceLastN (sortByPrice viable) cfg.max_discharge_hours).length ≤
      cfg.max_discharge_hours := by
    unfold sliceLastN
    rw [if_neg (by omega)]
    rw [List.length_drop]
    omega
  calc (((sliceLastN (sortByPrice viable) cfg.max_discharge_hours).filter
          (fun f => highT < f.cmg_clp_kwh)).map (·.hour)).toFinset.card
      ≤ (((sliceLastN (sortByPrice viable) cfg.max_discharge_hours).filter
          (fun f => highT < f.cmg_clp_kwh)).map (·.hour)).length := List.toFinset_card_le _
    _ = ((sliceLastN (sortByPrice viable) cfg.max_discharge_hours).filter
          (fun f => highT < f.cmg_clp_kwh)).length := List.length_map _ _
    _ ≤ (sliceLastN (sortByPrice viable) cfg.max_discharge_hours).length :=
        List.length_filter_le _ _
    _ ≤ cfg.max_discharge_hours := hlen

/-- **C3.** Under a non-degenerate configuration (positive capacity,
nonnegative max power, ordered SOC bounds aligned to one decimal — true of
the defaults 10 % / 95 % — and `max_discharge_hours ≥ 1`; the Python slice
`[-0:]` would break the discharge bound for a zero maximum), for every
forecast list with pairwise-distinct hours and every starting SOC within
bounds: each slot's `soc_after_pct` stays in `[min_soc_pct, max_soc_pct]`,
and the numbers of slots whose action is `charge` / `discharge` are at most
`max_charge_hours` / `max_discharge_hours`. -/
theorem claim_C3 (cfg : EngineCfg) (forecasts : List PriceForecast)
    (soc : ℚ) (s : ArbitrageSchedule)
    (hhours : (forecasts.map (·.hour)).Nodup)
    (hmp : 0 ≤ cfg.max_power_kw) (hcap : 0 < cfg.capacity_kwh)
    (hmm : cfg.min_soc_pct ≤ cfg.max_soc_pct)
    (hfixlo : pyRound cfg.min_soc_pct 1 = cfg.min_soc_pct)
    (hfixhi : pyRound cfg.max_soc_pct 1 = cfg.max_soc_pct)
    (hmd : 1 ≤ cfg.max_discharge_hours)
    (hlo : cfg.min_soc_pct ≤ soc) (hhi : soc ≤ cfg.max_soc_pct)
    (h : compute cfg forecasts soc = some s) :
    (∀ sl ∈ s.slots, cfg.min_soc_pct ≤ sl.soc_after_pct ∧
      sl.soc_after_pct ≤ cfg.max_soc_pct) ∧
    s.slots.countP (fun sl => decide (sl.action = .charge)) ≤ cfg.max_charge_hours ∧
    s.slots.countP (fun sl => decide (sl.action = .discharge)) ≤ cfg.max_discharge_hours := by
  unfold compute at h
  split_ifs at h with he hs
  · simp only [Option.some.injEq] at h
    rw [← h]
    refine ⟨?_, ?_, ?_⟩
    · intro sl hsl; simp [ArbitrageSchedule.defaults] at hsl
    · simp [ArbitrageSchedule.defaults]
    · simp [ArbitrageSchedule.defaults]
  · simp only [Option.some.injEq] at h
    rw [← h]
    refine ⟨?_, ?_, ?_⟩
    · intro sl hsl
      obtain ⟨_, _, _, hafter⟩ := allHoldSchedule_slots cfg forecasts soc sl hsl
      rw [hafter]
      exact ⟨hlo, hhi⟩
    · rw [List.countP_eq_zero.mpr]
      · omega
      · intro sl hsl
        have := (allHoldSchedule_slots cfg forecasts soc sl hsl).1
        simp [this]
    · rw [List.countP_eq_zero.mpr]
      · omega
      · intro sl hsl
        have := (allHoldSchedule_slots cfg forecasts soc sl hsl).1
        simp [this]
  · obtain ⟨lowT, highT, ws, _, _, hws, hrec⟩ :=
      computeTrade_inv cfg _ forecasts soc s h
    obtain ⟨_, _, hinv⟩ := walk_inv cfg _ _ hmp hcap hmm
      (sortByHour forecasts) ⟨soc, 0, 0, []⟩ ws hlo hhi
      (by intro sl hsl; simp at hsl) hws
    have hmap : ws.slots.map (·.hour) = (sortByHour forecasts).map (·.hour) := by
      have := walk_slots_hours cfg _ _ (sortByHour forecasts) ⟨soc, 0, 0, []⟩ ws hws
      simpa using this
    have hnodup : (ws.slots.map (·.hour)).Nodup := by
      rw [hmap]
      exact (((sortByHour_perm forecasts).map (·.hour)).nodup_iff).mpr hhours
    rw [hrec]
    refine ⟨?_, ?_, ?_⟩
    · intro sl hsl
      obtain ⟨_, _, _, h1, h2⟩ := hinv sl hsl
      rw [hfixlo] at h1
      rw [hfixhi] at h2
      exact ⟨h1, h2⟩
    · calc ws.slots.countP (fun sl => decide (sl.action = .charge))
          ≤ (chargeCandidates (viableOf cfg forecasts) cfg lowT \
              dischargeCandidates (viableOf cfg forecasts) cfg highT).card := by
            apply slots_countP_le_card ws.slots _ _ hnodup
            intro sl hsl hp
            exact ((hinv sl hsl).1 (by simpa using hp)).1
        _ ≤ (chargeCandidates (viableOf cfg forecasts) cfg lowT).card :=
            Finset.card_le_card (Finset.sdiff_subset)
        _ ≤ cfg.max_charge_hours := chargeCandidates_card_le _ cfg lowT
    · calc ws.slots.countP (fun sl => decide (sl.action = .discharge))
          ≤ (dischargeCandidates (viableOf cfg forecasts) cfg highT).card := by
            apply slots_countP_le_card ws.slots _ _ hnodup
            intro sl hsl hp
            exact ((hinv sl hsl).2.1 (by simpa using hp)).1
        _ ≤ cfg.max_discharge_hours := dischargeCandidates_card_le _ cfg highT hmd

/-- Witness for C3: the default engine on a flat three-hour forecast. -/
theorem claim_C3_witness :
    (∀ sl ∈ (allHoldSchedule EngineCfg.defaults
        [mkPriceForecastDefault 0 50, mkPriceForecastDefault 1 50,
         mkPriceForecastDefault 2 50] 40).slots,
      EngineCfg.defaults.min_soc_pct ≤ sl.soc_after_pct ∧
        sl.soc_after_pct ≤ EngineCfg.defaults.max_soc_pct) ∧
    (allHoldSchedule EngineCfg.defaults
        [mkPriceForecastDefault 0 50, mkPriceForecastDefault 1 50,
         mkPriceForecastDefault 2 50] 40).slots.countP
      (fun sl => decide (sl.action = .charge)) ≤ EngineCfg.defaults.max_charge_hours ∧
    (allHoldSchedule EngineCfg.defaults
        [mkPriceForecastDefault 0 50, mkPriceForecastDefault 1 50,
         mkPriceForecastDefault 2 50] 40).slots.countP
      (fun sl => decide (sl.action = .discharge)) ≤ EngineCfg.defaults.max_discharge_hours := by
  refine claim_C3 EngineCfg.defaults
    [mkPriceForecastDefault 0 50, mkPriceForecastDefault 1 50,
     mkPriceForecastDefault 2 50] 40
    (allHoldSchedule EngineCfg.defaults
      [mkPriceForecastDefault 0 50, mkPriceForecastDefault 1 50,
       mkPriceForecastDefault 2 50] 40)
    (by with_unfolding_all decide)
    (by norm_num [EngineCfg.defaults]) (by norm_num [EngineCfg.defaults])
    (by norm_num [EngineCfg.defaults])
    (by with_unfolding_all decide) (by with_unfolding_all decide)
    (by norm_num [EngineCfg.defaults])
    (by norm_num [EngineCfg.defaults]) (by norm_num [EngineCfg.defaults]) ?_
  unfold compute
  rw [if_neg (by simp), if_pos (by with_unfolding_all decide)]

/-! ## C7 counterexample and C4 evaluation input -/

/-- Four-hour forecast, two cheap hours at 20 and two peak hours at 120
(all confidences 1).  All float operations of the Python trace are exact at
the inputs below. -/
def fcsC7 : List PriceForecast :=
  [mkPriceForecast 0 20 1 "exponential_smoothing" 0 0,
   mkPriceForecast 1 20 1 "exponential_smoothing" 0 0,
   mkPriceForecast 2 120 1 "exponential_smoothing" 0 0,
   mkPriceForecast 3 120 1 "exponential_smoothing" 0 0]

theorem cexC7_viable : viableOf EngineCfg.defaults fcsC7 = fcsC7 := by
  unfold viableOf
  rw [List.filter_eq_self]
  intro f hf
  fin_cases hf <;> with_unfolding_all decide

set_option maxRecDepth 2000 in
set_option maxHeartbeats 2000000 in
theorem cexC7_var : ratSqrt 2500 = 50 := by
  with_unfolding_all decide

theorem cexC7_threshold (b : Bool) :
    priceThreshold (viableOf EngineCfg.defaults fcsC7) b =
      some (if b then (95 : ℚ) else 45) := by
  rw [cexC7_viable]
  show some (thresholdOfPrices (fcsC7.map (·.cmg_clp_kwh)) b) = _
  have hp : fcsC7.map (·.cmg_clp_kwh) = [20, 20, 120, 120] := by
    with_unfolding_all decide
  rw [hp]
  have hmean : meanOfPrices [20, 20, 120, 120] = 70 := by
    norm_num [meanOfPrices]
  have hvar : popVariance [20, 20, 120, 120] = 2500 := by
    norm_num [popVariance, hmean]
  unfold thresholdOfPrices
  rw [hmean, hvar, cexC7_var]
  cases b <;> norm_num

theorem cexC7_low : priceThreshold (viableOf EngineCfg.defaults fcsC7) false = some 45 := by
  simpa using cexC7_threshold false

theorem cexC7_high : priceThreshold (viableOf EngineCfg.defaults fcsC7) true = some 95 := by
  simpa using cexC7_threshold true

set_option maxRecDepth 2000 in
set_option maxHeartbeats 2000000 in
theorem cexC7_spread :
    ¬effectiveSpread (viableOf EngineCfg.defaults fcsC7) < EngineCfg.defaults.min_spread_clp := by
  with_unfolding_all decide

/-- The simulation fold of `compute EngineCfg.defaults fcsC7 94.99609375`. -/
def foldC7 : Option WalkState :=
  List.foldlM
    (stepSlot EngineCfg.defaults
      (chargeCandidates (viableOf EngineCfg.defaults fcsC7) EngineCfg.defaults 45 \
        dischargeCandidates (viableOf EngineCfg.defaults fcsC7) EngineCfg.defaults 95)
      (dischargeCandidates (viableOf EngineCfg.defaults fcsC7) EngineCfg.defaults 95))
    ⟨94.99609375, 0, 0, []⟩ (sortByHour fcsC7)

set_option maxRecDepth 2000 in
set_option maxHeartbeats 2000000 in
theorem cexC7_fold_any : foldC7.map
    (fun ws => ws.slots.any
      (fun sl => decide (sl.action = .charge) && decide (sl.power_kw = 0))) = some true := by
  with_unfolding_all decide

set_option maxRecDepth 2000 in
set_option maxHeartbeats 2000000 in
/-- **C7 counterexample.** Under the default configuration (max power 500 >
0, efficiency 0.92 > 0) with starting SOC 94.99609375 % (within bounds),
hour 0 is a charge candidate and charges with computed power 0.0390625 kW,
recorded as `power_kw = round(0.0390625, 1) = 0.0`: a slot whose action is
`charge` has `power_kw = 0`, contradicting both `charge → power_kw > 0` and
`power_kw = 0 ↔ hold`. -/
theorem claim_C7_counterexample :
    (compute EngineCfg.defaults fcsC7 94.99609375).map
      (fun s => s.slots.any
        (fun sl => decide (sl.action = .charge) && decide (sl.power_kw = 0))) = some true := by
  have hne : ¬fcsC7 = [] := by simp [fcsC7]
  obtain ⟨ws, hws⟩ := Option.isSome_iff_exists.mp
    (foldlM_option_isSome
      (stepSlot EngineCfg.defaults
        (chargeCandidates (viableOf EngineCfg.defaults fcsC7) EngineCfg.defaults 45 \
          dischargeCandidates (viableOf EngineCfg.defaults fcsC7) EngineCfg.defaults 95)
        (dischargeCandidates (viableOf EngineCfg.defaults fcsC7) EngineCfg.defaults 95))
      (fun b a => stepSlot_isSome EngineCfg.defaults _ _
        (by norm_num [EngineCfg.defaults]) b a)
      (sortByHour fcsC7) ⟨94.99609375, 0, 0, []⟩)
  have heq := compute_eq_trade EngineCfg.defaults fcsC7 94.99609375 hne cexC7_spread
  rw [computeTrade_eq_some EngineCfg.defaults _ fcsC7 94.99609375 45 95 ws
    cexC7_low cexC7_high hws] at heq
  rw [heq]
  simp only [Option.map_some']
  have hm := cexC7_fold_any
  unfold foldC7 at hm
  rw [hws] at hm
  simpa using hm

/-- The simulation fold of `compute EngineCfg.defaults fcsC7 95` (start at
the SOC ceiling). -/
def foldC4 : Option WalkState :=
  List.foldlM
    (stepSlot EngineCfg.defaults
      (chargeCandidates (viableOf EngineCfg.defaults fcsC7) EngineCfg.defaults 45 \
        dischargeCandidates (viableOf EngineCfg.defaults fcsC7) EngineCfg.defaults 95)
      (dischargeCandidates (viableOf EngineCfg.defaults fcsC7) EngineCfg.defaults 95))
    ⟨95, 0, 0, []⟩ (sortByHour fcsC7)

set_option maxRecDepth 2000 in
set_option maxHeartbeats 2000000 in
theorem cexC4_fold_count : foldC4.map
    (fun ws => ws.slots.countP (fun sl => decide (sl.action = .charge))) = some 0 := by
  with_unfolding_all decide

set_option maxRecDepth 2000 in
set_option maxHeartbeats 2000000 in
theorem cexC4_card :
    (chargeCandidates (viableOf EngineCfg.defaults fcsC7) EngineCfg.defaults 45 \
      dischargeCandidates (viableOf EngineCfg.defaults fcsC7) EngineCfg.defaults 95).card = 2 := by
  with_unfolding_all decide

set_option maxRecDepth 2000 in
set_option maxHeartbeats 2000000 in
/-- **C4.** Evaluation at the failing input: starting at the SOC ceiling
(95 %), no slot of the computed schedule charges (`soc < max_soc` is false
in every charge-candidate hour), yet the schedule reports
`n_charge_hours = 2` — the code reports the cardinality of the candidate
set `len(charge_hours)`, not the realized count the claim (and the
dataclass docstring, "Number of hours actively charging") describes. -/
theorem claim_C4 :
    (compute EngineCfg.defaults fcsC7 95).map (·.n_charge_hours) = some 2 ∧
    (compute EngineCfg.defaults fcsC7 95).map
      (fun s => s.slots.countP (fun sl => decide (sl.action = .charge))) = some 0 := by
  have hne : ¬fcsC7 = [] := by simp [fcsC7]
  obtain ⟨ws, hws⟩ := Option.isSome_iff_exists.mp
    (foldlM_option_isSome
      (stepSlot EngineCfg.defaults
        (chargeCandidates (viableOf EngineCfg.defaults fcsC7) EngineCfg.defaults 45 \
          dischargeCandidates (viableOf EngineCfg.defaults fcsC7) EngineCfg.defaults 95)
        (dischargeCandidates (viableOf EngineCfg.defaults fcsC7) EngineCfg.defaults 95))
      (fun b a => stepSlot_isSome EngineCfg.defaults _ _
        (by norm_num [EngineCfg.defaults]) b a)
      (sortByHour fcsC7) ⟨95, 0, 0, []⟩)
  have heq := compute_eq_trade EngineCfg.defaults fcsC7 95 hne cexC7_spread
  rw [computeTrade_eq_some EngineCfg.defaults _ fcsC7 95 45 95 ws
    cexC7_low cexC7_high hws] at heq
  rw [heq]
  constructor
  · simp only [Option.map_some']
    rw [cexC4_card]
  · simp only [Option.map_some']
    have hm := cexC4_fold_count
    unfold foldC4 at hm
    rw [hws] at hm
    simpa using hm

/-! ## C10 (amended): capacity monotonicity for discharge-only schedules -/

/-- `(max m x - m) * c = max 0 ((x - m) * c)` for `0 ≤ c`. -/
theorem max_sub_mul (m x c : ℚ) (hc : 0 ≤ c) :
    (max m x - m) * c = max 0 ((x - m) * c) := by
  rcases le_total m x with hmx | hxm
  · rw [max_eq_right hmx, max_eq_right (mul_nonneg (by linarith) hc)]
  · rw [max_eq_left hxm, max_eq_left (mul_nonpos_of_nonpos_of_nonneg (by linarith) hc)]
    ring

/-- `e ↦ e - min P e` is monotone. -/
theorem sub_min_mono (P e1 e2 : ℚ) (h : e1 ≤ e2) :
    e1 - min P e1 ≤ e2 - min P e2 := by
  rcases le_total P e1 with h1 | h1 <;> rcases le_total P e2 with h2 | h2 <;>
    simp [min_eq_left, min_eq_right, h1, h2] <;> linarith

/-- Energy bookkeeping of one discharge step: with energy above the floor
measured as `(soc - m) * c`, the post-discharge energies stay ordered and
the discharged power (pre-efficiency) is ordered. -/
theorem discharge_step_ineq (m P c1 c2 s1 s2 : ℚ)
    (hc1 : 0 < c1) (hc2 : 0 < c2) (hP : 0 ≤ P)
    (hs1 : m ≤ s1) (hs2 : m ≤ s2)
    (hE : (s1 - m) * c1 ≤ (s2 - m) * c2) :
    min P ((s1 - m) / 100 * c1) ≤ min P ((s2 - m) / 100 * c2) ∧
    (max m (s1 - min P ((s1 - m) / 100 * c1) / c1 * 100) - m) * c1 ≤
      (max m (s2 - min P ((s2 - m) / 100 * c2) / c2 * 100) - m) * c2 := by
  have he : (s1 - m) / 100 * c1 ≤ (s2 - m) / 100 * c2 := by
    have h100 : (0:ℚ) < 100 := by norm_num
    calc (s1 - m) / 100 * c1 = (s1 - m) * c1 / 100 := by ring
      _ ≤ (s2 - m) * c2 / 100 := by linarith
      _ = (s2 - m) / 100 * c2 := by ring
  refine ⟨min_le_min (le_refl P) he, ?_⟩
  have key : ∀ (c s : ℚ), 0 < c → m ≤ s →
      (max m (s - min P ((s - m) / 100 * c) / c * 100) - m) * c =
        max 0 (((s - m) / 100 * c - min P ((s - m) / 100 * c)) * 100) := by
    intro c s hc hs
    rw [max_sub_mul _ _ _ (le_of_lt hc)]
    congr 1
    have hcne : c ≠ 0 := ne_of_gt hc
    field_simp
    ring
  rw [key c1 s1 hc1 hs1, key c2 s2 hc2 hs2]
  have hmono := sub_min_mono P _ _ he
  have : ((s1 - m) / 100 * c1 - min P ((s1 - m) / 100 * c1)) * 100 ≤
      ((s2 - m) / 100 * c2 - min P ((s2 - m) / 100 * c2)) * 100 := by linarith
  exact max_le_max (le_refl 0) this

/-- Evaluated hold step. -/
theorem stepSlot_hold_eq (cfg : EngineCfg) (cs ds : Finset ℕ)
    (ws : WalkState) (fc : PriceForecast)
    (hc : ¬(fc.hour ∈ cs ∧ ws.soc < cfg.max_soc_pct))
    (hd : ¬(fc.hour ∈ ds ∧ cfg.min_soc_pct < ws.soc)) :
    stepSlot cfg cs ds ws fc =
      some { soc := ws.soc
             totalRevenue := ws.totalRevenue
             totalCost := ws.totalCost
             slots := ws.slots ++ [{ hour := fc.hour
                                     action := .hold
                                     power_kw := pyRound 0 1
                                     forecast := fc
                                     soc_before_pct := pyRound ws.soc 1
                                     soc_after_pct := pyRound ws.soc 1
                                     revenue_clp := (pyRoundInt 0 : ℚ) }] } := by
  unfold stepSlot
  rw [if_neg hc, if_neg hd]

/-- Evaluated discharge step. -/
theorem stepSlot_discharge_eq (cfg : EngineCfg) (cs ds : Finset ℕ)
    (ws : WalkState) (fc : PriceForecast)
    (hc : ¬(fc.hour ∈ cs ∧ ws.soc < cfg.max_soc_pct))
    (hd : fc.hour ∈ ds ∧ cfg.min_soc_pct < ws.soc)
    (hz : cfg.capacity_kwh ≠ 0) :
    stepSlot cfg cs ds ws fc =
      some { soc := max cfg.min_soc_pct (ws.soc -
               min cfg.max_power_kw ((ws.soc - cfg.min_soc_pct) / 100 * cfg.capacity_kwh) /
                 cfg.capacity_kwh * 100)
             totalRevenue := ws.totalRevenue +
               min cfg.max_power_kw ((ws.soc - cfg.min_soc_pct) / 100 * cfg.capacity_kwh) *
                 cfg.efficiency * fc.cmg_clp_kwh / 1000
             totalCost := ws.totalCost
             slots := ws.slots ++ [{ hour := fc.hour
                                     action := .discharge
                                     power_kw := pyRound (-(min cfg.max_power_kw
                                       ((ws.soc - cfg.min_soc_pct) / 100 * cfg.capacity_kwh) *
                                         cfg.efficiency)) 1
                                     forecast := fc
                                     soc_before_pct := pyRound ws.soc 1
                                     soc_after_pct := pyRound (max cfg.min_soc_pct (ws.soc -
                                       min cfg.max_power_kw
                                         ((ws.soc - cfg.min_soc_pct) / 100 * cfg.capacity_kwh) /
                                           cfg.capacity_kwh * 100)) 1
                                     revenue_clp := (pyRoundInt (min cfg.max_power_kw
                                       ((ws.soc - cfg.min_soc_pct) / 100 * cfg.capacity_kwh) *
                                         cfg.efficiency * fc.cmg_clp_kwh / 1000 * 1000) : ℚ) }] } := by
  unfold stepSlot
  rw [if_neg hc, if_pos hd, if_neg hz]

/-- With no charge candidates, the simulation revenue (and thus the net) is
nondecreasing in the configured capacity: the two walks differ only in
`capacity_kwh` and their costs stay equal (no charging ever occurs). -/
theorem walk_discharge_mono (cfg : EngineCfg) (c1 c2 : ℚ) (ds : Finset ℕ)
    (h1 : 0 < c1) (h2 : 0 < c2) (h12 : c1 ≤ c2)
    (hmp : 0 ≤ cfg.max_power_kw) (heff : 0 ≤ cfg.efficiency) :
    ∀ (l : List PriceForecast) (ws1 ws2 ws1' ws2' : WalkState),
      (∀ f ∈ l, 0 ≤ f.cmg_clp_kwh) →
      cfg.min_soc_pct ≤ ws1.soc → cfg.min_soc_pct ≤ ws2.soc →
      (ws1.soc - cfg.min_soc_pct) * c1 ≤ (ws2.soc - cfg.min_soc_pct) * c2 →
      ws1.totalRevenue ≤ ws2.totalRevenue →
      ws1.totalCost = ws2.totalCost →
      List.foldlM (stepSlot { cfg with capacity_kwh := c1 } ∅ ds) ws1 l = some ws1' →
      List.foldlM (stepSlot { cfg with capacity_kwh := c2 } ∅ ds) ws2 l = some ws2' →
      ws1'.totalRevenue ≤ ws2'.totalRevenue ∧ ws1'.totalCost = ws2'.totalCost := by
  intro l
  induction l with
  | nil =>
    intro ws1 ws2 ws1' ws2' _ _ _ _ hrev hcost hf1 hf2
    simp [List.foldlM] at hf1 hf2
    rw [← hf1, ← hf2]
    exact ⟨hrev, hcost⟩
  | cons a t ih =>
    intro ws1 ws2 ws1' ws2' hp hlo1 hlo2 hE hrev hcost hf1 hf2
    have hpa : 0 ≤ a.cmg_clp_kwh := hp a (by simp)
    have hpt : ∀ f ∈ t, 0 ≤ f.cmg_clp_kwh := fun f hf => hp f (by simp [hf])
    rw [List.foldlM_cons] at hf1 hf2
    by_cases hd : a.hour ∈ ds ∧ cfg.min_soc_pct < ws1.soc
    · -- both discharge
      have hd2 : a.hour ∈ ds ∧ cfg.min_soc_pct < ws2.soc := by
        refine ⟨hd.1, ?_⟩
        by_contra hcon
        push_neg at hcon
        have hz2 : ws2.soc = cfg.min_soc_pct := le_antisymm hcon hlo2
        have : (ws1.soc - cfg.min_soc_pct) * c1 ≤ 0 := by
          rw [hz2] at hE
          simpa using hE
        nlinarith [hd.2]
      rw [stepSlot_discharge_eq { cfg with capacity_kwh := c1 } ∅ ds ws1 a
        (by simp) ⟨hd.1, hd.2⟩ (ne_of_gt h1)] at hf1
      rw [stepSlot_discharge_eq { cfg with capacity_kwh := c2 } ∅ ds ws2 a
        (by simp) ⟨hd2.1, hd2.2⟩ (ne_of_gt h2)] at hf2
      simp only [Option.bind_eq_bind, Option.some_bind] at hf1 hf2
      obtain ⟨hpb, hE'⟩ := discharge_step_ineq cfg.min_soc_pct cfg.max_power_kw
        c1 c2 ws1.soc ws2.soc h1 h2 hmp hlo1 hlo2 hE
      refine ih _ _ ws1' ws2' hpt ?_ ?_ ?_ ?_ ?_ hf1 hf2
      · exact le_max_left _ _
      · exact le_max_left _ _
      · exact hE'
      · have hr : min cfg.max_power_kw ((ws1.soc - cfg.min_soc_pct) / 100 * c1) *
            cfg.efficiency * a.cmg_clp_kwh / 1000 ≤
            min cfg.max_power_kw ((ws2.soc - cfg.min_soc_pct) / 100 * c2) *
            cfg.efficiency * a.cmg_clp_kwh / 1000 := by
          have := mul_le_mul_of_nonneg_right
            (mul_le_mul_of_nonneg_right hpb heff) hpa
          linarith
        simpa using add_le_add hrev hr
      · simpa using hcost
    · -- engine 1 holds
      rw [stepSlot_hold_eq { cfg with capacity_kwh := c1 } ∅ ds ws1 a
        (by simp) hd] at hf1
      simp only [Option.bind_eq_bind, Option.some_bind] at hf1
      by_cases hd2 : a.hour ∈ ds ∧ cfg.min_soc_pct < ws2.soc
      · -- engine 2 discharges
        rw [stepSlot_discharge_eq { cfg with capacity_kwh := c2 } ∅ ds ws2 a
          (by simp) hd2 (ne_of_gt h2)] at hf2
        simp only [Option.bind_eq_bind, Option.some_bind] at hf2
        have hE1 : ws1.soc = cfg.min_soc_pct := by
          rcases Decidable.em (cfg.min_soc_pct < ws1.soc) with hlt | hnlt
          · exact absurd ⟨hd2.1, hlt⟩ hd
          · push_neg at hnlt
            exact le_antisymm hnlt hlo1
        have hpb2 : 0 ≤ min cfg.max_power_kw ((ws2.soc - cfg.min_soc_pct) / 100 * c2) := by
          refine le_min hmp ?_
          have : 0 ≤ ws2.soc - cfg.min_soc_pct := by linarith [hd2.2]
          positivity
        refine ih _ _ ws1' ws2' hpt ?_ ?_ ?_ ?_ ?_ hf1 hf2
        · exact hlo1
        · exact le_max_left _ _
        · rw [hE1]
          simp only [sub_self, zero_mul]
          rw [max_sub_mul _ _ _ (le_of_lt h2)]
          exact le_max_left _ _
        · have hr : 0 ≤ min cfg.max_power_kw ((ws2.soc - cfg.min_soc_pct) / 100 * c2) *
              cfg.efficiency * a.cmg_clp_kwh / 1000 := by
            have := mul_nonneg (mul_nonneg hpb2 heff) hpa
            linarith
          simpa using le_trans hrev (by linarith)
        · simpa using hcost
      · -- engine 2 holds as well
        rw [stepSlot_hold_eq { cfg with capacity_kwh := c2 } ∅ ds ws2 a
          (by simp) hd2] at hf2
        simp only [Option.bind_eq_bind, Option.some_bind] at hf2
        refine ih _ _ ws1' ws2' hpt ?_ ?_ ?_ ?_ ?_ hf1 hf2
        · exact hlo1
        · exact hlo2
        · simpa using hE
        · simpa using hrev
        · simpa using hcost

theorem Int.cast_le_rat {a b : ℤ} (h : a ≤ b) : (a : ℚ) ≤ (b : ℚ) := by
  exact_mod_cast h

/-- **C10 (amended).** For configurations differing only in capacity, if the
forecast yields no charge candidates (for instance `max_charge_hours = 0`,
or no viable hour prices strictly below the charge threshold), then the
projected net is nondecreasing in the capacity.  (The general claim is
false: with charging, a larger capacity can buy strictly more energy than
the remaining discharge hours can sell — see the counterexample, where the
discharge hour precedes the charge hour.) -/
theorem claim_C10 (cfg : EngineCfg) (c1 c2 : ℚ) (forecasts : List PriceForecast)
    (soc : ℚ) (s1 s2 : ArbitrageSchedule)
    (h1 : 0 < c1) (h12 : c1 ≤ c2)
    (hmp : 0 ≤ cfg.max_power_kw) (heff : 0 ≤ cfg.efficiency)
    (hsoc : cfg.min_soc_pct ≤ soc)
    (hprices : ∀ f ∈ forecasts, 0 ≤ f.cmg_clp_kwh)
    (hnc : ∀ lowT : ℚ, priceThreshold (viableOf cfg forecasts) false = some lowT →
      chargeCandidates (viableOf cfg forecasts) cfg lowT = ∅)
    (hc1 : compute { cfg with capacity_kwh := c1 } forecasts soc = some s1)
    (hc2 : compute { cfg with capacity_kwh := c2 } forecasts soc = some s2) :
    s1.projected_net_clp ≤ s2.projected_net_clp := by
  have h2 : 0 < c2 := lt_of_lt_of_le h1 h12
  have hv1 : viableOf { cfg with capacity_kwh := c1 } forecasts =
      viableOf cfg forecasts := rfl
  have hv2 : viableOf { cfg with capacity_kwh := c2 } forecasts =
      viableOf cfg forecasts := rfl
  unfold compute at hc1 hc2
  rw [hv1] at hc1
  rw [hv2] at hc2
  split_ifs at hc1 hc2 with he hs
  · -- empty input: both return the defaults
    simp only [Option.some.injEq] at hc1 hc2
    rw [← hc1, ← hc2]
  · -- all-hold path on both sides: both nets are literally 0
    simp only [Option.some.injEq] at hc1 hc2
    rw [← hc1, ← hc2]
    exact le_refl 0
  · -- trading path on both sides
    obtain ⟨lowT1, highT1, ws1, hlow1, hhigh1, hws1, hrec1⟩ :=
      computeTrade_inv _ _ forecasts soc s1 hc1
    obtain ⟨lowT2, highT2, ws2, hlow2, hhigh2, hws2, hrec2⟩ :=
      computeTrade_inv _ _ forecasts soc s2 hc2
    have hlow12 : lowT1 = lowT2 := by
      have := hlow1.symm.trans hlow2
      exact Option.some_injective _ this
    have hhigh12 : highT1 = highT2 := by
      have := hhigh1.symm.trans hhigh2
      exact Option.some_injective _ this
    subst hlow12
    subst hhigh12
    have hcc := hnc lowT1 hlow1
    have hccfg1 : chargeCandidates (viableOf cfg forecasts)
        { cfg with capacity_kwh := c1 } lowT1 = ∅ := hcc
    have hccfg2 : chargeCandidates (viableOf cfg forecasts)
        { cfg with capacity_kwh := c2 } lowT1 = ∅ := hcc
    rw [hccfg1, Finset.empty_sdiff] at hws1
    rw [hccfg2, Finset.empty_sdiff] at hws2
    have hds : dischargeCandidates (viableOf cfg forecasts)
        { cfg with capacity_kwh := c2 } highT1 =
        dischargeCandidates (viableOf cfg forecasts)
        { cfg with capacity_kwh := c1 } highT1 := rfl
    rw [hds] at hws2
    have hmono := walk_discharge_mono cfg c1 c2
      (dischargeCandidates (viableOf cfg forecasts)
        { cfg with capacity_kwh := c1 } highT1)
      h1 h2 h12 hmp heff (sortByHour forecasts)
      ⟨soc, 0, 0, []⟩ ⟨soc, 0, 0, []⟩ ws1 ws2
      (fun f hf => hprices f (mem_sortByHour.mp hf))
      hsoc hsoc
      (by
        have : (0:ℚ) ≤ soc - cfg.min_soc_pct := by linarith
        simpa using mul_le_mul_of_nonneg_left h12 this)
      (le_refl 0) rfl hws1 hws2
    rw [hrec1, hrec2]
    show ((pyRoundInt ((ws1.totalRevenue - ws1.totalCost) * 1000) : ℤ) : ℚ) ≤
      ((pyRoundInt ((ws2.totalRevenue - ws2.totalCost) * 1000) : ℤ) : ℚ)
    apply Int.cast_le_rat
    apply pyRoundInt_mono
    have := hmono.1
    have := hmono.2
    nlinarith [hmono.1, hmono.2]

/-- Witness for C10: empty forecast, default configuration, capacities 1000
and 2000. -/
theorem claim_C10_witness :
    ArbitrageSchedule.defaults.projected_net_clp ≤
      ArbitrageSchedule.defaults.projected_net_clp := by
  refine claim_C10 EngineCfg.defaults 1000 2000 [] 50
    ArbitrageSchedule.defaults ArbitrageSchedule.defaults
    (by norm_num) (by norm_num)
    (by norm_num [EngineCfg.defaults]) (by norm_num [EngineCfg.defaults])
    (by norm_num [EngineCfg.defaults])
    (by intro f hf; simp at hf) ?_ ?_ ?_
  · intro lowT hl
    exact absurd hl (by simp [viableOf, priceThreshold])
  · simp [compute]
  · simp [compute]

/-! ## C10 counterexample: capacity ×10 strictly decreases the net -/

/-- One charge and one discharge hour allowed; otherwise the defaults. -/
def cfgC10 : EngineCfg :=
  { EngineCfg.defaults with max_charge_hours := 1, max_discharge_hours := 1 }

/-- The peak hour 0 comes chronologically before the cheap hour 1 but last
in the (stable) price order, so the engine discharges first and charges
afterwards; a larger battery then buys strictly more un-sellable energy. -/
def fcsC10 : List PriceForecast :=
  [mkPriceForecast 1 90 1 "exponential_smoothing" 0 0,
   mkPriceForecast 2 90 1 "exponential_smoothing" 0 0,
   mkPriceForecast 3 100 1 "exponential_smoothing" 0 0,
   mkPriceForecast 0 100 1 "exponential_smoothing" 0 0]

theorem cexC10_viable : viableOf cfgC10 fcsC10 = fcsC10 := by
  unfold viableOf
  rw [List.filter_eq_self]
  intro f hf
  fin_cases hf <;> with_unfolding_all decide

set_option maxRecDepth 2000 in
set_option maxHeartbeats 2000000 in
theorem cexC10_var : ratSqrt 25 = 5 := by
  with_unfolding_all decide

theorem cexC10_threshold (b : Bool) :
    priceThreshold (viableOf cfgC10 fcsC10) b =
      some (if b then (195/2 : ℚ) else 185/2) := by
  rw [cexC10_viable]
  show some (thresholdOfPrices (fcsC10.map (·.cmg_clp_kwh)) b) = _
  have hp : fcsC10.map (·.cmg_clp_kwh) = [90, 90, 100, 100] := by
    with_unfolding_all decide
  rw [hp]
  have hmean : meanOfPrices [90, 90, 100, 100] = 95 := by
    norm_num [meanOfPrices]
  have hvar : popVariance [90, 90, 100, 100] = 25 := by
    norm_num [popVariance, hmean]
  unfold thresholdOfPrices
  rw [hmean, hvar, cexC10_var]
  cases b <;> norm_num

set_option maxRecDepth 2000 in
set_option maxHeartbeats 2000000 in
theorem cexC10_spread :
    ¬effectiveSpread (viableOf cfgC10 fcsC10) < cfgC10.min_spread_clp := by
  with_unfolding_all decide

/-- The simulation folds for capacities 100 and 1000. -/
def foldC10 (c : ℚ) : Option WalkState :=
  List.foldlM
    (stepSlot { cfgC10 with capacity_kwh := c }
      (chargeCandidates (viableOf cfgC10 fcsC10) cfgC10 (185/2) \
        dischargeCandidates (viableOf cfgC10 fcsC10) cfgC10 (195/2))
      (dischargeCandidates (viableOf cfgC10 fcsC10) cfgC10 (195/2)))
    ⟨50, 0, 0, []⟩ (sortByHour fcsC10)

set_option maxRecDepth 2000 in
set_option maxHeartbeats 2000000 in
theorem cexC10_fold_a :
    (foldC10 100).map (fun ws => (ws.totalRevenue, ws.totalCost)) =
      some (92/25, 153/20) := by
  with_unfolding_all decide

set_option maxRecDepth 2000 in
set_option maxHeartbeats 2000000 in
theorem cexC10_fold_b :
    (foldC10 1000).map (fun ws => (ws.totalRevenue, ws.totalCost)) =
      some (184/5, 45) := by
  with_unfolding_all decide

set_option maxRecDepth 2000 in
set_option maxHeartbeats 2000000 in
/-- **C10 counterexample.** Same forecast and starting SOC, configurations
differing only in capacity (100 kWh versus 1000 kWh): the larger battery's
schedule projects net -8200 CLP versus -3970 CLP for the smaller one — a
tenfold capacity increase strictly decreases the projected net. -/
theorem claim_C10_counterexample :
    (compute { cfgC10 with capacity_kwh := 100 } fcsC10 50).map
      (·.projected_net_clp) = some (-3970) ∧
    (compute { cfgC10 with capacity_kwh := 1000 } fcsC10 50).map
      (·.projected_net_clp) = some (-8200) ∧
    (100 : ℚ) ≤ 1000 ∧ ¬((-3970 : ℚ) ≤ -8200) := by
  have hne : ¬fcsC10 = [] := by simp [fcsC10]
  have hget : ∀ c : ℚ, c ≠ 0 → ∀ q1 q2 : ℚ,
      (foldC10 c).map (fun ws => (ws.totalRevenue, ws.totalCost)) = some (q1, q2) →
      (compute { cfgC10 with capacity_kwh := c } fcsC10 50).map
        (·.projected_net_clp) = some ((pyRoundInt ((q1 - q2) * 1000) : ℚ)) := by
    intro c hc q1 q2 hfold
    obtain ⟨ws, hws⟩ := Option.isSome_iff_exists.mp
      (foldlM_option_isSome
        (stepSlot { cfgC10 with capacity_kwh := c }
          (chargeCandidates (viableOf cfgC10 fcsC10) cfgC10 (185/2) \
            dischargeCandidates (viableOf cfgC10 fcsC10) cfgC10 (195/2))
          (dischargeCandidates (viableOf cfgC10 fcsC10) cfgC10 (195/2)))
        (fun b a => stepSlot_isSome _ _ _ hc b a)
        (sortByHour fcsC10) ⟨50, 0, 0, []⟩)
    have heq := compute_eq_trade { cfgC10 with capacity_kwh := c } fcsC10 50 hne
      cexC10_spread
    have hveq : viableOf { cfgC10 with capacity_kwh := c } fcsC10 =
        viableOf cfgC10 fcsC10 := rfl
    rw [hveq] at heq
    have hcsq : chargeCandidates (viableOf cfgC10 fcsC10)
        { cfgC10 with capacity_kwh := c } (185/2) =
        chargeCandidates (viableOf cfgC10 fcsC10) cfgC10 (185/2) := rfl
    have hdsq : dischargeCandidates (viableOf cfgC10 fcsC10)
        { cfgC10 with capacity_kwh := c } (195/2) =
        dischargeCandidates (viableOf cfgC10 fcsC10) cfgC10 (195/2) := rfl
    have hws0 := hws
    rw [← hcsq, ← hdsq] at hws
    rw [computeTrade_eq_some { cfgC10 with capacity_kwh := c } _ fcsC10 50
      (185/2) (195/2) ws (cexC10_threshold false) (cexC10_threshold true) hws] at heq
    unfold foldC10 at hfold
    rw [hws0] at hfold
    simp only [Option.map_some', Option.some.injEq, Prod.mk.injEq] at hfold
    rw [heq]
    simp only [Option.map_some', Option.some.injEq]
    rw [hfold.1, hfold.2]
  refine ⟨?_, ?_, by norm_num, by norm_num⟩
  · have := hget 100 (by norm_num) (92/25) (153/20) cexC10_fold_a
    rw [this]
    norm_num
    rw [pyRoundInt]
    norm_num
  · have := hget 1000 (by norm_num) (184/5) 45 cexC10_fold_b
    rw [this]
    norm_num
    rw [pyRoundInt]
    norm_num

/-! ## `CMgPredictor` (src/interfaces/cmg_predictor.py)

The predictor holds a rolling history, a per-hour exponential-smoothing
table, and a TTL forecast cache.  The monotonic clock `time.monotonic()` is
made an explicit parameter `now`; the horizon decay `math.exp(-offset/12)`
is irrational and is abstracted as a parameter `decay : ℕ → ℚ`, which for
offsets `1..24` satisfies `0 < decay o ≤ 1` (the hypotheses the theorems
take).  The ONNX sessions are abstracted as total functions from the
feature vector to the scalar output (the claim itself treats them as
arbitrary functions); the exception fallback of `_predict_onnx` is not
reachable in this total model.  Hours fed to `update` are 0–23 (outside
that range the Python code raises `IndexError` on `_HOURLY_MEAN_CMG`). -/

/-- `_HOURLY_MEAN_CMG`. -/
def hourlyMeanCmg : List ℚ :=
  [38.2, 36.1, 34.8, 34.1, 33.9, 35.2,
   42.1, 58.3, 71.2, 61.4, 48.3, 38.9,
   29.4, 24.1, 22.8, 21.3, 22.1, 28.7,
   44.2, 62.3, 78.4, 71.2, 58.3, 46.1]

/-- Mutable fields of `CMgPredictor` relevant to prediction: rolling
history (`_history`), smoothing table (`_smooth`, total function on hours),
forecast cache (`_cache`), and the constructor parameters. -/
structure PredictorState where
  history : List (ℕ × ℚ)
  history_window : ℕ
  alpha : ℚ
  cache_ttl_s : ℚ
  smooth : ℕ → ℚ
  cache : Option (ℚ × List PriceForecast)

/-- `CMgPredictor.__init__` with the default parameters (no ONNX model:
smoothing fallback; `_smooth = {h: _HOURLY_MEAN_CMG[h] for h in range(24)}`). -/
def initPredictor : PredictorState :=
  { history := []
    history_window := 192
    alpha := 3/10
    cache_ttl_s := 1800
    smooth := fun h => hourlyMeanCmg.getD h 0
    cache := none }

/-- The cache-invalidation test of `CMgPredictor.update`:
`self._cache is not None and self._history and
abs(cmg - self._history[-1][1]) > _CACHE_INVALIDATE_DELTA`. -/
def invalidateB (s : PredictorState) (cmg : ℚ) : Bool :=
  match s.cache, s.history.getLast? with
  | some _, some last => decide (5 < |cmg - last.2|)
  | _, _ => false

/-- `CMgPredictor.update`: conditional cache invalidation, history append
with window pop, smoothing update `alpha*cmg + (1-alpha)*prev`. -/
def updateP (s : PredictorState) (hour : ℕ) (cmg : ℚ) : PredictorState :=
  { s with
    cache := if invalidateB s cmg then none else s.cache
    history := if s.history_window < (s.history ++ [(hour, cmg)]).length then
        (s.history ++ [(hour, cmg)]).tail else s.history ++ [(hour, cmg)]
    smooth := fun h => if h = hour then
        s.alpha * cmg + (1 - s.alpha) * s.smooth hour else s.smooth h }

/-- The optional `self.update(current_hour, current_cmg)` at the top of
`predict_next_24h`. -/
def preUpdate (s : PredictorState) (h : ℕ) : Option ℚ → PredictorState
  | some c => updateP s h c
  | none => s

/-- The TTL cache test of `predict_next_24h`:
`self._cache is not None and (now - self._cache[0]) < self._cache_ttl_s`. -/
def cacheHit (s : PredictorState) (now : ℚ) : Bool :=
  match s.cache with
  | some (t, _) => decide (now - t < s.cache_ttl_s)
  | none => false

/-- `self._cache[1]` (the cached forecast list). -/
def cachedList (s : PredictorState) : List PriceForecast :=
  match s.cache with
  | some (_, r) => r
  | none => []

/-- The coefficient of variation of `_predict_smoothing`:
`stdev/mean` over the last 24 observed prices when at least two exist and
the mean is positive, `0.5` otherwise. -/
def smoothingCv (s : PredictorState) : ℚ :=
  if 2 ≤ ((sliceLastN s.history 24).map Prod.snd).length then
    if 0 < listMean ((sliceLastN s.history 24).map Prod.snd) then
      sampleStdev ((sliceLastN s.history 24).map Prod.snd) /
        listMean ((sliceLastN s.history 24).map Prod.snd)
    else 1/2
  else 1/2

/-- The point prediction for one offset: the smoothed value, blended
towards the historic hourly mean with weight `(offset-12)/12` for
offsets beyond 12. -/
def smoothingPredicted (s : PredictorState) (ch offset : ℕ) : ℚ :=
  if 12 < offset then
    (1 - ((offset : ℚ) - 12) / 12) * s.smooth ((ch + offset) % 24) +
      (((offset : ℚ) - 12) / 12) * hourlyMeanCmg.getD ((ch + offset) % 24) 0
  else s.smooth ((ch + offset) % 24)

/-- `confidence = max(0.1, (1 - cv) * horizon_decay)`. -/
def smoothingConfidence (decay : ℕ → ℚ) (s : PredictorState) (offset : ℕ) : ℚ :=
  max (1/10) ((1 - smoothingCv s) * decay offset)

/-- `band = predicted * (0.3 - 0.2 * confidence)` (unrounded confidence). -/
def smoothingBand (decay : ℕ → ℚ) (s : PredictorState) (ch offset : ℕ) : ℚ :=
  smoothingPredicted s ch offset *
    (3/10 - (1/5) * smoothingConfidence decay s offset)

/-- One `PriceForecast` built in the `_predict_smoothing` loop. -/
def smoothingForecast (decay : ℕ → ℚ) (s : PredictorState) (ch offset : ℕ) :
    PriceForecast :=
  mkPriceForecast ((ch + offset) % 24)
    (pyRound (smoothingPredicted s ch offset) 2)
    (pyRound (smoothingConfidence decay s offset) 3)
    "exponential_smoothing"
    (pyRound (max 0 (smoothingPredicted s ch offset - smoothingBand decay s ch offset)) 2)
    (pyRound (smoothingPredicted s ch offset + smoothingBand decay s ch offset) 2)

/-- `CMgPredictor._predict_smoothing`. -/
def predictSmoothing (decay : ℕ → ℚ) (s : PredictorState) (ch : ℕ) :
    List PriceForecast :=
  (List.range' 1 24).map (smoothingForecast decay s ch)

/-- ONNX sessions as arbitrary total functions of the feature vector:
the main point model and the optional `(p10, p90)` quantile pair. -/
structure OnnxModels where
  point : List ℚ → ℚ
  quantile : Option ((List ℚ → ℚ) × (List ℚ → ℚ))

/-- `CMgPredictor._make_feature_vector` (v2, 11 features; the call site
passes the defaults `day_of_week = 0.0`, `soc_pct = 50.0`, so
`is_weekend = 0`). -/
def makeFeatureVector (h : ℕ) (recent_mean recent_std lag_1h lag_24h lag_168h : ℚ) :
    List ℚ :=
  [50, (h : ℚ), 0, recent_mean, recent_std,
   if h ∈ peakHours then 1 else 0, if h ∈ solarTroughHours then 1 else 0,
   lag_1h, lag_24h, lag_168h, 0]

/-- `recent_vals = [v for _, v in self._history[-24:]] or [current_cmg]`. -/
def onnxRecentVals (s : PredictorState) (ccmg : ℚ) : List ℚ :=
  if ((sliceLastN s.history 24).map Prod.snd) = [] then [ccmg]
  else (sliceLastN s.history 24).map Prod.snd

/-- The feature vector of `_predict_onnx` for one target hour (`recent_vals`
is never empty, so `recent_mean` is always its mean; the
`_HOURLY_MEAN_CMG[current_hour]` fallback is dead code in the source). -/
def onnxFeatures (s : PredictorState) (ccmg : ℚ) (h : ℕ) : List ℚ :=
  makeFeatureVector h (listMean (onnxRecentVals s ccmg))
    (if 1 < (onnxRecentVals s ccmg).length then sampleStdev (onnxRecentVals s ccmg) else 5)
    (match s.history.getLast? with
     | some p => p.2
     | none => ccmg)
    (if 24 ≤ s.history.length then (s.history.getD (s.history.length - 24) (0, 0)).2
     else listMean (onnxRecentVals s ccmg))
    (if 168 ≤ s.history.length then (s.history.getD (s.history.length - 168) (0, 0)).2
     else listMean (onnxRecentVals s ccmg))

/-- Confidence and the two band arguments of the `_predict_onnx` loop body:
without quantile models `(0.85, 0, 0)`; with them, `max(0, ·)` clamped
quantile outputs, the band-ratio confidence when `predicted > 0` and
`p90 > p10`, and the Python truthiness `round(p, 2) if p else 0.0`. -/
def onnxBands (models : OnnxModels) (predicted : ℚ) (features : List ℚ) :
    ℚ × ℚ × ℚ :=
  match models.quantile with
  | none => (85/100, 0, 0)
  | some (m10, m90) =>
    (if 0 < predicted ∧ max 0 (m10 features) < max 0 (m90 features) then
       max (3/10) (min (98/100)
         (1 - (max 0 (m90 features) - max 0 (m10 features)) / predicted * (1/2)))
     else 85/100,
     if max 0 (m10 features) = 0 then 0 else pyRound (max 0 (m10 features)) 2,
     if max 0 (m90 features) = 0 then 0 else pyRound (max 0 (m90 features)) 2)

/-- One `PriceForecast` built in the `_predict_onnx` loop
(`predicted = max(0.0, point-model output)`, `confidence = 0.85` or the
band-ratio formula). -/
def onnxForecast (models : OnnxModels) (s : PredictorState) (ch : ℕ) (ccmg : ℚ)
    (offset : ℕ) : PriceForecast :=
  mkPriceForecast ((ch + offset) % 24)
    (pyRound (max 0 (models.point (onnxFeatures s ccmg ((ch + offset) % 24)))) 2)
    (pyRound (onnxBands models (max 0 (models.point (onnxFeatures s ccmg ((ch + offset) % 24))))
        (onnxFeatures s ccmg ((ch + offset) % 24))).1 3)
    "onnx"
    (onnxBands models (max 0 (models.point (onnxFeatures s ccmg ((ch + offset) % 24))))
        (onnxFeatures s ccmg ((ch + offset) % 24))).2.1
    (onnxBands models (max 0 (models.point (onnxFeatures s ccmg ((ch + offset) % 24))))
        (onnxFeatures s ccmg ((ch + offset) % 24))).2.2

/-- `CMgPredictor._predict_onnx`. -/
def predictOnnx (models : OnnxModels) (s : PredictorState) (ch : ℕ) (ccmg : ℚ) :
    List PriceForecast :=
  (List.range' 1 24).map (onnxForecast models s ch ccmg)

/-- The fresh-forecast computation of `predict_next_24h`:
ONNX when a session is loaded, smoothing otherwise; `current_cmg or 0.0`. -/
def computeForecast (decay : ℕ → ℚ) (models : Option OnnxModels)
    (s : PredictorState) (ch : ℕ) (ocmg : Option ℚ) : List PriceForecast :=
  match models with
  | some m => predictOnnx m s ch (ocmg.getD 0)
  | none => predictSmoothing decay s ch

/-- `CMgPredictor.predict_next_24h` with explicit clock `now`: optional
history update, TTL cache check (a hit returns the cached list WITHOUT
refreshing the cache timestamp), otherwise fresh computation and caching
at `now`. -/
def predictNext24h (decay : ℕ → ℚ) (models : Option OnnxModels)
    (s : PredictorState) (now : ℚ) (ch : ℕ) (ocmg : Option ℚ) :
    List PriceForecast × PredictorState :=
  if cacheHit (preUpdate s ch ocmg) now then
    (cachedList (preUpdate s ch ocmg), preUpdate s ch ocmg)
  else
    (computeForecast decay models (preUpdate s ch ocmg) ch ocmg,
     { preUpdate s ch ocmg with
       cache := some (now, computeForecast decay models (preUpdate s ch ocmg) ch ocmg) })

/-- One observation is within the invalidation delta of the last recorded
observation (vacuously true on empty history). -/
def smallDeltaB (s : PredictorState) (u : ℕ × ℚ) : Bool :=
  match s.history.getLast? with
  | some last => decide (|u.2 - last.2| ≤ 5)
  | none => true

/-- Every update of the run is small-delta w.r.t. the evolving state. -/
def smallRunB (s : PredictorState) : List (ℕ × ℚ) → Bool
  | [] => true
  | u :: us => smallDeltaB s u && smallRunB (updateP s u.1 u.2) us

/-- A sequence of `update` calls. -/
def applyUpdates (s : PredictorState) (us : List (ℕ × ℚ)) : PredictorState :=
  us.foldl (fun st u => updateP st u.1 u.2) s

/-- The structural part of claim C1 (spec wording): 24 elements, ordered by
hour starting at `(current_hour+1) % 24`, hours covering `{0,…,23}`,
nonnegative point estimates, confidence in `[0,1]`. -/
def forecastStructureOk (ch : ℕ) (r : List PriceForecast) : Prop :=
  r.length = 24 ∧
  r.map (fun f => f.hour) = (List.range' 1 24).map (fun o => (ch + o) % 24) ∧
  (r.map (fun f => f.hour)).toFinset = Finset.range 24 ∧
  ∀ f ∈ r, 0 ≤ f.cmg_clp_kwh ∧ 0 ≤ f.confidence ∧ f.confidence ≤ 1

/-- The band part of claim C1 (spec wording): `p10 ≤ point ≤ p90`. -/
def forecastBandsOk (r : List PriceForecast) : Prop :=
  ∀ f ∈ r, f.cmg_p10 ≤ f.cmg_clp_kwh ∧ f.cmg_clp_kwh ≤ f.cmg_p90

/-! ### Rounding fixpoints -/

theorem pyRoundInt_intCast (z : ℤ) : pyRoundInt (z : ℚ) = z := by
  unfold pyRoundInt
  rw [Int.floor_intCast]
  norm_num

theorem pyRound_pyRound (x : ℚ) (n : ℕ) : pyRound (pyRound x n) n = pyRound x n := by
  unfold pyRound
  have h : (pyRoundInt (x * 10 ^ n) : ℚ) / 10 ^ n * 10 ^ n =
      ((pyRoundInt (x * 10 ^ n) : ℤ) : ℚ) := by
    field_simp
  rw [h, pyRoundInt_intCast]

theorem pyRound_one (n : ℕ) : pyRound 1 n = 1 := by
  unfold pyRound
  rw [one_mul, show ((10:ℚ) ^ n) = ((10 ^ n : ℤ) : ℚ) by push_cast; ring,
    pyRoundInt_intCast]
  rw [div_self]
  positivity

theorem pyRound_le_one {x : ℚ} (n : ℕ) (h : x ≤ 1) : pyRound x n ≤ 1 := by
  have := pyRound_mono n h
  rwa [pyRound_one] at this

/-! ### Hour-arithmetic helpers -/

theorem mem_range'_bounds {o : ℕ} (ho : o ∈ List.range' 1 24) : 1 ≤ o ∧ o < 25 := by
  have h : List.range' 1 24 =
      [1,2,3,4,5,6,7,8,9,10,11,12,13,14,15,16,17,18,19,20,21,22,23,24] := rfl
  rw [h] at ho
  fin_cases ho <;> omega

theorem hoursMapToFinset (ch : ℕ) :
    ((List.range' 1 24).map (fun o => (ch + o) % 24)).toFinset = Finset.range 24 := by
  have hnd : ((List.range' 1 24).map (fun o => (ch + o) % 24)).Nodup := by
    refine List.Nodup.map_on ?_ (by decide)
    intro o1 h1 o2 h2 heq
    have hb1 := mem_range'_bounds h1
    have hb2 := mem_range'_bounds h2
    omega
  apply Finset.eq_of_subset_of_card_le
  · intro x hx
    rw [List.mem_toFinset] at hx
    obtain ⟨o, _, rfl⟩ := List.mem_map.mp hx
    exact Finset.mem_range.mpr (Nat.mod_lt _ (by norm_num))
  · rw [Finset.card_range, List.toFinset_card_of_nodup hnd]
    simp

theorem listGetD_nonneg (l : List ℚ) (hl : ∀ x ∈ l, 0 ≤ x) (i : ℕ) :
    0 ≤ l.getD i 0 := by
  induction l generalizing i with
  | nil => simp [List.getD]
  | cons a t ih =>
    cases i with
    | zero => simpa using hl a (by simp)
    | succ j =>
      simp only [List.getD_cons_succ]
      exact ih (fun x hx => hl x (by simp [hx])) j

theorem hourlyMean_getD_nonneg (h : ℕ) : 0 ≤ hourlyMeanCmg.getD h 0 :=
  listGetD_nonneg _ (by intro x hx; fin_cases hx <;> norm_num) h

/-! ### Bounds on the smoothing quantities -/

theorem smoothingCv_nonneg (s : PredictorState) : 0 ≤ smoothingCv s := by
  unfold smoothingCv
  split_ifs with h1 h2
  · exact div_nonneg (by unfold sampleStdev; exact ratSqrt_nonneg _) h2.le
  · norm_num
  · norm_num

theorem smoothingPredicted_nonneg (s : PredictorState) (ch o : ℕ)
    (hsm : ∀ h, 0 ≤ s.smooth h) (ho : o ≤ 24) : 0 ≤ smoothingPredicted s ch o := by
  unfold smoothingPredicted
  split_ifs with h12
  · have hm := hourlyMean_getD_nonneg ((ch + o) % 24)
    have hs := hsm ((ch + o) % 24)
    have ho' : ((o : ℕ) : ℚ) ≤ 24 := by exact_mod_cast ho
    have h12' : (12 : ℚ) < ((o : ℕ) : ℚ) := by exact_mod_cast h12
    have hw1 : (0:ℚ) ≤ (((o : ℕ) : ℚ) - 12) / 12 := by linarith
    have hw2 : (((o : ℕ) : ℚ) - 12) / 12 ≤ 1 := by linarith
    have := mul_nonneg (show (0:ℚ) ≤ 1 - (((o : ℕ) : ℚ) - 12) / 12 by linarith) hs
    have := mul_nonneg hw1 hm
    linarith
  · exact hsm _

theorem smoothingConfidence_bounds (decay : ℕ → ℚ) (s : PredictorState) (o : ℕ)
    (h1 : 0 < decay o) (h2 : decay o ≤ 1) :
    1/10 ≤ smoothingConfidence decay s o ∧ smoothingConfidence decay s o ≤ 1 := by
  unfold smoothingConfidence
  refine ⟨le_max_left _ _, ?_⟩
  apply max_le (by norm_num)
  have hcv := smoothingCv_nonneg s
  rcases le_or_lt (1 - smoothingCv s) 0 with hle | hlt
  · have : (1 - smoothingCv s) * decay o ≤ 0 :=
      mul_nonpos_of_nonpos_of_nonneg hle h1.le
    linarith
  · nlinarith

theorem smoothingBand_nonneg (decay : ℕ → ℚ) (s : PredictorState) (ch o : ℕ)
    (hsm : ∀ h, 0 ≤ s.smooth h) (ho : o ≤ 24)
    (h1 : 0 < decay o) (h2 : decay o ≤ 1) : 0 ≤ smoothingBand decay s ch o := by
  unfold smoothingBand
  have hp := smoothingPredicted_nonneg s ch o hsm ho
  have hc := smoothingConfidence_bounds decay s o h1 h2
  apply mul_nonneg hp
  linarith [hc.2]

theorem onnxBands_fst_bounds (models : OnnxModels) (p : ℚ) (f : List ℚ) :
    0 ≤ (onnxBands models p f).1 ∧ (onnxBands models p f).1 ≤ 1 := by
  unfold onnxBands
  rcases models.quantile with _ | ⟨m10, m90⟩
  · norm_num
  · simp only
    split_ifs
    · constructor
      · calc (0:ℚ) ≤ 3/10 := by norm_num
          _ ≤ _ := le_max_left _ _
      · apply max_le (by norm_num)
        exact le_trans (min_le_left _ _) (by norm_num)
    · norm_num

/-! ### Per-record band bracketing through `__post_init__` -/

theorem mkPriceForecast_bands (h : ℕ) (c p band : ℚ) (m : String)
    (hp : 0 ≤ p) (hb : 0 ≤ band) :
    (mkPriceForecast h (pyRound p 2) c m (pyRound (max 0 (p - band)) 2)
        (pyRound (p + band) 2)).cmg_p10 ≤
      (mkPriceForecast h (pyRound p 2) c m (pyRound (max 0 (p - band)) 2)
        (pyRound (p + band) 2)).cmg_clp_kwh ∧
    (mkPriceForecast h (pyRound p 2) c m (pyRound (max 0 (p - band)) 2)
        (pyRound (p + band) 2)).cmg_clp_kwh ≤
      (mkPriceForecast h (pyRound p 2) c m (pyRound (max 0 (p - band)) 2)
        (pyRound (p + band) 2)).cmg_p90 := by
  have hcn : 0 ≤ pyRound p 2 := pyRound_nonneg 2 hp
  constructor
  · show (if pyRound (max 0 (p - band)) 2 = 0 then pyRound (pyRound p 2 * (85/100)) 2
        else pyRound (max 0 (p - band)) 2) ≤ pyRound p 2
    split_ifs with h0
    · calc pyRound (pyRound p 2 * (85/100)) 2 ≤ pyRound (pyRound p 2) 2 :=
          pyRound_mono 2 (by linarith)
        _ = pyRound p 2 := pyRound_pyRound p 2
    · exact pyRound_mono 2 (max_le hp (by linarith))
  · show pyRound p 2 ≤ (if pyRound (p + band) 2 = 0 then
        pyRound (pyRound p 2 * (115/100)) 2 else pyRound (p + band) 2)
    split_ifs with h0
    · calc pyRound p 2 = pyRound (pyRound p 2) 2 := (pyRound_pyRound p 2).symm
        _ ≤ pyRound (pyRound p 2 * (115/100)) 2 := pyRound_mono 2 (by linarith)
    · exact pyRound_mono 2 (by linarith)

/-! ### Structure of both forecast paths -/

theorem structureOk_of_map (ch : ℕ) (g : ℕ → PriceForecast)
    (hhour : ∀ o, (g o).hour = (ch + o) % 24)
    (hprops : ∀ o, 1 ≤ o → o < 25 →
      0 ≤ (g o).cmg_clp_kwh ∧ 0 ≤ (g o).confidence ∧ (g o).confidence ≤ 1) :
    forecastStructureOk ch ((List.range' 1 24).map g) := by
  have hmap : ((List.range' 1 24).map g).map (fun f => f.hour) =
      (List.range' 1 24).map (fun o => (ch + o) % 24) := by
    rw [List.map_map]
    exact List.map_congr_left (fun o _ => hhour o)
  refine ⟨by simp, hmap, ?_, ?_⟩
  · rw [hmap, hoursMapToFinset]
  · intro f hf
    obtain ⟨o, ho, rfl⟩ := List.mem_map.mp hf
    have hb := mem_range'_bounds ho
    exact hprops o hb.1 hb.2

theorem smoothingForecast_cmg (decay : ℕ → ℚ) (s : PredictorState) (ch o : ℕ) :
    (smoothingForecast decay s ch o).cmg_clp_kwh =
      pyRound (smoothingPredicted s ch o) 2 := rfl

theorem smoothingForecast_conf (decay : ℕ → ℚ) (s : PredictorState) (ch o : ℕ) :
    (smoothingForecast decay s ch o).confidence =
      pyRound (smoothingConfidence decay s o) 3 := rfl

theorem onnxForecast_cmg (models : OnnxModels) (s : PredictorState) (ch : ℕ)
    (ccmg : ℚ) (o : ℕ) :
    (onnxForecast models s ch ccmg o).cmg_clp_kwh =
      pyRound (max 0 (models.point (onnxFeatures s ccmg ((ch + o) % 24)))) 2 := rfl

theorem onnxForecast_conf (models : OnnxModels) (s : PredictorState) (ch : ℕ)
    (ccmg : ℚ) (o : ℕ) :
    (onnxForecast models s ch ccmg o).confidence =
      pyRound (onnxBands models
        (max 0 (models.point (onnxFeatures s ccmg ((ch + o) % 24))))
        (onnxFeatures s ccmg ((ch + o) % 24))).1 3 := rfl

/-- Smoothing updates with a nonnegative price and `alpha ∈ [0,1]` keep the
smoothing table nonnegative, so the hypothesis of C1 on `s.smooth` is an
invariant of reachable states (it holds for `initPredictor`). -/
theorem updateP_smooth_nonneg (s : PredictorState) (hour : ℕ) (cmg : ℚ)
    (ha1 : 0 ≤ s.alpha) (ha2 : s.alpha ≤ 1) (hs : ∀ h, 0 ≤ s.smooth h)
    (hc : 0 ≤ cmg) : ∀ h, 0 ≤ (updateP s hour cmg).smooth h := by
  intro h
  show (0:ℚ) ≤ if h = hour then
      s.alpha * cmg + (1 - s.alpha) * s.smooth hour else s.smooth h
  split_ifs
  · have := hs hour
    nlinarith
  · exact hs h

set_option maxHeartbeats 1000000 in
/-- **C1 (amended).** On the smoothing path the forecast list has exactly
24 elements, ordered by hour starting at `(current_hour+1) % 24`, the hour
fields cover `{0,…,23}`, every point estimate is nonnegative, every
confidence is in `[0,1]`, and the bands bracket the point
(`p10 ≤ point ≤ p90`).  On the ONNX path with arbitrary point/quantile
models the same structural facts hold, but the band bracketing does NOT —
the quantile outputs are clamped to `0` but never to each other or to the
point estimate (see the counterexample).  Hypotheses: the smoothing table
is nonnegative (an invariant of reachable states), and the horizon decay
`exp(-offset/12)` lies in `(0, 1]`. -/
theorem claim_C1 (decay : ℕ → ℚ) (models : OnnxModels) (s : PredictorState)
    (ch : ℕ) (ccmg : ℚ)
    (hdec : ∀ o, 0 < decay o ∧ decay o ≤ 1)
    (hsm : ∀ h, 0 ≤ s.smooth h) :
    forecastStructureOk ch (predictSmoothing decay s ch) ∧
    forecastBandsOk (predictSmoothing decay s ch) ∧
    forecastStructureOk ch (predictOnnx models s ch ccmg) := by
  refine ⟨?_, ?_, ?_⟩
  · unfold predictSmoothing
    apply structureOk_of_map
    · intro o
      rfl
    · intro o ho1 ho2
      refine ⟨?_, ?_, ?_⟩
      · rw [smoothingForecast_cmg]
        exact pyRound_nonneg 2 (smoothingPredicted_nonneg s ch o hsm (by omega))
      · rw [smoothingForecast_conf]
        exact pyRound_nonneg 3
          (le_trans (by norm_num)
            (smoothingConfidence_bounds decay s o (hdec o).1 (hdec o).2).1)
      · rw [smoothingForecast_conf]
        exact pyRound_le_one 3
          (smoothingConfidence_bounds decay s o (hdec o).1 (hdec o).2).2
  · intro f hf
    obtain ⟨o, ho, rfl⟩ := List.mem_map.mp hf
    have hb := mem_range'_bounds ho
    unfold smoothingForecast
    exact mkPriceForecast_bands _ _ _ _ _
      (smoothingPredicted_nonneg s ch o hsm (by omega))
      (smoothingBand_nonneg decay s ch o hsm (by omega) (hdec o).1 (hdec o).2)
  · unfold predictOnnx
    apply structureOk_of_map
    · intro o
      rfl
    · intro o _ _
      refine ⟨?_, ?_, ?_⟩
      · rw [onnxForecast_cmg]
        exact pyRound_nonneg 2 (le_max_left 0 _)
      · rw [onnxForecast_conf]
        exact pyRound_nonneg 3 (onnxBands_fst_bounds models _ _).1
      · rw [onnxForecast_conf]
        exact pyRound_le_one 3 (onnxBands_fst_bounds models _ _).2

/-- Witness for C1: the default predictor state, decay `1/2`, a constant
point model without quantile models. -/
theorem claim_C1_witness :
    forecastStructureOk 0 (predictSmoothing (fun _ => (1:ℚ)/2) initPredictor 0) ∧
    forecastBandsOk (predictSmoothing (fun _ => (1:ℚ)/2) initPredictor 0) ∧
    forecastStructureOk 0
      (predictOnnx { point := fun _ => 10, quantile := none } initPredictor 0 0) :=
  claim_C1 (fun _ => (1:ℚ)/2) { point := fun _ => 10, quantile := none }
    initPredictor 0 0 (by intro o; constructor <;> norm_num)
    (fun h => hourlyMean_getD_nonneg h)

/-- ONNX models whose quantile outputs do not bracket the point estimate. -/
def cexC1Models : OnnxModels :=
  { point := fun _ => 10, quantile := some (fun _ => 100, fun _ => 50) }

theorem headMem {α : Type _} {l : List α} {a : α} (h : l.head? = some a) :
    a ∈ l := by
  cases l with
  | nil => simp at h
  | cons x xs =>
    simp at h
    rw [← h]
    exact List.mem_cons_self x xs

set_option maxRecDepth 2000 in
set_option maxHeartbeats 2000000 in
/-- **C1 counterexample.** With a point model returning 10 and quantile
models returning 100 (p10) and 50 (p90) — values the claim admits, as the
models are arbitrary functions — the first forecast of the ONNX path has
`cmg_p10 = 100 > 10 = cmg_clp_kwh`: the band bracketing
`p10 ≤ point ≤ p90` fails. -/
theorem claim_C1_counterexample :
    (predictOnnx cexC1Models initPredictor 0 40).head? =
      some { hour := 1, cmg_clp_kwh := 10, confidence := 17/20, method := "onnx",
             cmg_p10 := 100, cmg_p90 := 50, is_peak := false,
             is_solar_trough := false } ∧
    ¬ forecastBandsOk (predictOnnx cexC1Models initPredictor 0 40) := by
  have hh : (predictOnnx cexC1Models initPredictor 0 40).head? =
      some { hour := 1, cmg_clp_kwh := 10, confidence := 17/20, method := "onnx",
             cmg_p10 := 100, cmg_p90 := 50, is_peak := false,
             is_solar_trough := false } := by
    with_unfolding_all decide
  refine ⟨hh, ?_⟩
  intro hbo
  have hmem := headMem hh
  have hcon := hbo _ hmem
  have h1 : (100:ℚ) ≤ 10 := hcon.1
  norm_num at h1

/-! ### C8: TTL-cache idempotence -/

theorem updateP_ttl (s : PredictorState) (h : ℕ) (c : ℚ) :
    (updateP s h c).cache_ttl_s = s.cache_ttl_s := rfl

theorem updateP_cache_none (s : PredictorState) (h : ℕ) (c : ℚ)
    (hc : s.cache = none) : (updateP s h c).cache = none := by
  have hinv : invalidateB s c = false := by
    unfold invalidateB
    rw [hc]
  simp [updateP, hinv, hc]

theorem updateP_cache_small (s : PredictorState) (u : ℕ × ℚ)
    (h : smallDeltaB s u = true) : (updateP s u.1 u.2).cache = s.cache := by
  have hinv : invalidateB s u.2 = false := by
    unfold invalidateB smallDeltaB at *
    rcases hc : s.cache with _ | c <;>
      rcases hl : s.history.getLast? with _ | last <;>
      simp [hc, hl] at h ⊢
    linarith
  simp [updateP, hinv]

theorem preUpdate_ttl (s : PredictorState) (h : ℕ) (oc : Option ℚ) :
    (preUpdate s h oc).cache_ttl_s = s.cache_ttl_s := by
  cases oc <;> rfl

theorem preUpdate_cache_none (s : PredictorState) (h : ℕ) (oc : Option ℚ)
    (hc : s.cache = none) : (preUpdate s h oc).cache = none := by
  cases oc with
  | none => exact hc
  | some c => exact updateP_cache_none s h c hc

theorem applyUpdates_cache (us : List (ℕ × ℚ)) : ∀ s : PredictorState,
    smallRunB s us = true →
    (applyUpdates s us).cache = s.cache ∧
    (applyUpdates s us).cache_ttl_s = s.cache_ttl_s := by
  induction us with
  | nil => exact fun s _ => ⟨rfl, rfl⟩
  | cons u us ih =>
    intro s h
    rw [smallRunB, Bool.and_eq_true] at h
    have h1 := updateP_cache_small s u h.1
    have h2 := ih (updateP s u.1 u.2) h.2
    have hstep : applyUpdates s (u :: us) = applyUpdates (updateP s u.1 u.2) us := rfl
    exact ⟨by rw [hstep, h2.1, h1], by rw [hstep, h2.2, updateP_ttl]⟩

theorem cacheHit_none {s : PredictorState} (now : ℚ) (h : s.cache = none) :
    cacheHit s now = false := by
  unfold cacheHit
  rw [h]

theorem cacheHit_some {s : PredictorState} {t : ℚ} {r : List PriceForecast}
    (now : ℚ) (h : s.cache = some (t, r)) :
    cacheHit s now = decide (now - t < s.cache_ttl_s) := by
  unfold cacheHit
  rw [h]

theorem predictNext24h_miss (decay : ℕ → ℚ) (models : Option OnnxModels)
    (s : PredictorState) (now : ℚ) (ch : ℕ) (ocmg : Option ℚ)
    (h : cacheHit (preUpdate s ch ocmg) now = false) :
    predictNext24h decay models s now ch ocmg =
      (computeForecast decay models (preUpdate s ch ocmg) ch ocmg,
       { preUpdate s ch ocmg with
         cache := some (now, computeForecast decay models (preUpdate s ch ocmg) ch ocmg) }) := by
  unfold predictNext24h
  rw [h]
  simp

theorem predictNext24h_hit (decay : ℕ → ℚ) (models : Option OnnxModels)
    (s : PredictorState) (now : ℚ) (ch : ℕ) (ocmg : Option ℚ)
    (h : cacheHit (preUpdate s ch ocmg) now = true) :
    predictNext24h decay models s now ch ocmg =
      (cachedList (preUpdate s ch ocmg), preUpdate s ch ocmg) := by
  unfold predictNext24h
  rw [h]
  simp

/-- **C8 (amended).** When the FIRST of the two calls itself populates the
cache (cache miss, e.g. no cache existed), a second call made within the
TTL of the first — with any intervening updates all within the
invalidation delta of the then-last observation — returns the identical
list.  (The literal claim, for any two calls less than TTL apart, is
false: a cache hit does not refresh the cache timestamp, so the TTL runs
from cache creation, not from the previous call — see the
counterexample.) -/
theorem claim_C8 (decay : ℕ → ℚ) (models : Option OnnxModels) (s : PredictorState)
    (now1 now2 : ℚ) (h1 h2 : ℕ) (ocmg : Option ℚ) (us : List (ℕ × ℚ))
    (hmiss : s.cache = none)
    (hrun : smallRunB (predictNext24h decay models s now1 h1 ocmg).2 us = true)
    (httl : now2 - now1 < s.cache_ttl_s) :
    (predictNext24h decay models
        (applyUpdates (predictNext24h decay models s now1 h1 ocmg).2 us)
        now2 h2 none).1 =
      (predictNext24h decay models s now1 h1 ocmg).1 := by
  have hc1 : (preUpdate s h1 ocmg).cache = none := preUpdate_cache_none s h1 ocmg hmiss
  have hhit1 : cacheHit (preUpdate s h1 ocmg) now1 = false := cacheHit_none now1 hc1
  have hcall1 := predictNext24h_miss decay models s now1 h1 ocmg hhit1
  have hs2cache : (predictNext24h decay models s now1 h1 ocmg).2.cache =
      some (now1, computeForecast decay models (preUpdate s h1 ocmg) h1 ocmg) := by
    rw [hcall1]
  have hs2ttl : (predictNext24h decay models s now1 h1 ocmg).2.cache_ttl_s =
      s.cache_ttl_s := by
    rw [hcall1]
    exact preUpdate_ttl s h1 ocmg
  obtain ⟨hc3, httl3⟩ :=
    applyUpdates_cache us (predictNext24h decay models s now1 h1 ocmg).2 hrun
  rw [hs2cache] at hc3
  rw [hs2ttl] at httl3
  have hhit3 : cacheHit
      (preUpdate (applyUpdates (predictNext24h decay models s now1 h1 ocmg).2 us) h2 none)
      now2 = true := by
    show cacheHit (applyUpdates (predictNext24h decay models s now1 h1 ocmg).2 us)
      now2 = true
    rw [cacheHit_some now2 hc3, httl3]
    exact decide_eq_true httl
  rw [predictNext24h_hit decay models _ now2 h2 none hhit3]
  show cachedList (applyUpdates (predictNext24h decay models s now1 h1 ocmg).2 us) = _
  unfold cachedList
  rw [hc3, hcall1]

/-- Witness for C8: default predictor, first call at `t = 0`, second call
at `t = 100`, no intervening updates. -/
theorem claim_C8_witness :
    (predictNext24h (fun _ => (1:ℚ)/2) none
        (applyUpdates (predictNext24h (fun _ => (1:ℚ)/2) none initPredictor 0 0 none).2 [])
        100 0 none).1 =
      (predictNext24h (fun _ => (1:ℚ)/2) none initPredictor 0 0 none).1 :=
  claim_C8 (fun _ => (1:ℚ)/2) none initPredictor 0 100 0 0 none [] rfl rfl
    (by norm_num [initPredictor])

/-! ### C8 counterexample: a cache hit does not refresh the TTL clock -/

/-- Two observations of 40 CLP/kWh at hour 5, then a first forecast call at
`t = 0` (cache miss, smoothing path). -/
def sC8a : PredictorState := updateP (updateP initPredictor 5 40) 5 40

def predC8A (decay : ℕ → ℚ) : List PriceForecast × PredictorState :=
  predictNext24h decay none sC8a 0 0 none

/-- Second call at `t = 1000 < 1800`: cache hit. -/
def predC8B (decay : ℕ → ℚ) : List PriceForecast × PredictorState :=
  predictNext24h decay none (predC8A decay).2 1000 0 none

/-- Intervening zero-delta observation (40, like the last recorded one). -/
def sC8c (decay : ℕ → ℚ) : PredictorState := updateP (predC8B decay).2 5 40

/-- Third call at `t = 1900`, only 900 s after the second. -/
def predC8C (decay : ℕ → ℚ) : List PriceForecast × PredictorState :=
  predictNext24h decay none (sC8c decay) 1900 0 none

/-- Capacity-independent cache-free sibling of `sC8c` for evaluation. -/
def sC8c' : PredictorState := updateP sC8a 5 40

theorem cexC8_A (decay : ℕ → ℚ) : predC8A decay =
    (predictSmoothing decay sC8a 0,
     { sC8a with cache := some (0, predictSmoothing decay sC8a 0) }) := by
  have hhit : cacheHit (preUpdate sC8a 0 none) 0 = false := by
    with_unfolding_all decide
  exact predictNext24h_miss decay none sC8a 0 0 none hhit

theorem cexC8_B (decay : ℕ → ℚ) : predC8B decay =
    (predictSmoothing decay sC8a 0,
     { sC8a with cache := some (0, predictSmoothing decay sC8a 0) }) := by
  have hc : ((predC8A decay).2).cache =
      some ((0:ℚ), predictSmoothing decay sC8a 0) := by
    rw [cexC8_A]
  have httl : ((predC8A decay).2).cache_ttl_s = 1800 := by
    rw [cexC8_A]
    rfl
  have hhit : cacheHit (preUpdate (predC8A decay).2 0 none) 1000 = true := by
    show cacheHit (predC8A decay).2 1000 = true
    rw [cacheHit_some 1000 hc, httl]
    exact decide_eq_true (by norm_num)
  have h := predictNext24h_hit decay none (predC8A decay).2 1000 0 none hhit
  rw [show predC8B decay = predictNext24h decay none (predC8A decay).2 1000 0 none
    from rfl, h]
  rw [show preUpdate (predC8A decay).2 0 none = (predC8A decay).2 from rfl]
  rw [cexC8_A]
  rfl

theorem cexC8_C_state (decay : ℕ → ℚ) : sC8c decay =
    updateP { sC8a with cache := some (0, predictSmoothing decay sC8a 0) } 5 40 := by
  rw [show sC8c decay = updateP (predC8B decay).2 5 40 from rfl, cexC8_B]

theorem cexC8_small (decay : ℕ → ℚ) : smallDeltaB
    { sC8a with cache := some ((0:ℚ), predictSmoothing decay sC8a 0) } (5, 40) = true := by
  unfold smallDeltaB
  rw [show ({ sC8a with
      cache := some ((0:ℚ), predictSmoothing decay sC8a 0) } : PredictorState).history.getLast?
    = some (5, (40:ℚ)) from by with_unfolding_all rfl]
  exact decide_eq_true (by norm_num)

theorem cexC8_C_cache (decay : ℕ → ℚ) :
    (sC8c decay).cache = some ((0:ℚ), predictSmoothing decay sC8a 0) := by
  rw [cexC8_C_state]
  exact (updateP_cache_small _ (5, 40) (cexC8_small decay)).trans rfl

theorem cexC8_C (decay : ℕ → ℚ) :
    (predC8C decay).1 = predictSmoothing decay (sC8c decay) 0 := by
  have hhit : cacheHit (preUpdate (sC8c decay) 0 none) 1900 = false := by
    show cacheHit (sC8c decay) 1900 = false
    rw [cacheHit_some 1900 (cexC8_C_cache decay)]
    rw [show (sC8c decay).cache_ttl_s = 1800 from by rw [cexC8_C_state]; rfl]
    exact decide_eq_false (by norm_num)
  rw [show predC8C decay = predictNext24h decay none (sC8c decay) 1900 0 none
    from rfl, predictNext24h_miss decay none (sC8c decay) 1900 0 none hhit]
  rfl

theorem predictSmoothing_map_cmg (decay : ℕ → ℚ) (s : PredictorState) (ch : ℕ) :
    (predictSmoothing decay s ch).map (fun f => f.cmg_clp_kwh) =
      (List.range' 1 24).map (fun o => pyRound (smoothingPredicted s ch o) 2) := by
  unfold predictSmoothing
  rw [List.map_map]
  rfl

theorem cexC8_predicted (decay : ℕ → ℚ) (o : ℕ) :
    smoothingPredicted (sC8c decay) 0 o = smoothingPredicted sC8c' 0 o := by
  rw [cexC8_C_state]
  rfl

set_option maxRecDepth 2000 in
set_option maxHeartbeats 1000000 in
theorem cexC8_B_val :
    ((List.range' 1 24).map (fun o => pyRound (smoothingPredicted sC8a 0 o) 2)).getD 4 0
      = 37.65 := by
  with_unfolding_all decide

set_option maxRecDepth 2000 in
set_option maxHeartbeats 1000000 in
theorem cexC8_C_val :
    ((List.range' 1 24).map (fun o => pyRound (smoothingPredicted sC8c' 0 o) 2)).getD 4 0
      = 38.35 := by
  with_unfolding_all decide

theorem cexC8_main (decay : ℕ → ℚ) :
    (1900 : ℚ) - 1000 < sC8a.cache_ttl_s ∧
    smallDeltaB (predC8B decay).2 (5, 40) = true ∧
    (predC8B decay).1 = (predC8A decay).1 ∧
    ((predC8B decay).1.map (fun f => f.cmg_clp_kwh)).getD 4 0 = 37.65 ∧
    ((predC8C decay).1.map (fun f => f.cmg_clp_kwh)).getD 4 0 = 38.35 ∧
    (predC8B decay).1 ≠ (predC8C decay).1 := by
  have hBval : ((predC8B decay).1.map (fun f => f.cmg_clp_kwh)).getD 4 0 = 37.65 := by
    rw [cexC8_B, predictSmoothing_map_cmg]
    exact cexC8_B_val
  have hCval : ((predC8C decay).1.map (fun f => f.cmg_clp_kwh)).getD 4 0 = 38.35 := by
    rw [cexC8_C, predictSmoothing_map_cmg]
    rw [List.map_congr_left (fun o _ => by rw [cexC8_predicted decay o])]
    exact cexC8_C_val
  refine ⟨by norm_num [show sC8a.cache_ttl_s = 1800 from rfl], ?_, ?_, hBval, hCval, ?_⟩
  · rw [cexC8_B]
    exact cexC8_small decay
  · rw [cexC8_B, cexC8_A]
  · intro h
    have := congrArg (fun l => (l.map (fun f => f.cmg_clp_kwh)).getD 4 0) h
    simp only at this
    rw [hBval, hCval] at this
    norm_num at this

/-- A concrete decay instance; the point estimates compared by the
counterexample are decay-independent (`cexC8_main` holds for every decay,
in particular for the true `exp(-offset/12)` values). -/
def decayC8 : ℕ → ℚ := fun _ => 1/2

/-- **C8 counterexample.** Two observations (40, 40) seed `sC8a`; a first
call at `t = 0` caches the forecast; a second call at `t = 1000` is a
cache hit returning the cached list; an intervening `update(5, 40)` has
delta 0 (≤ 5, no invalidation); a third call at `t = 1900` — only 900 s
(< TTL 1800 s) after the second — recomputes, because the cache hit never
refreshed the `t = 0` cache timestamp, and the hour-5 point estimate has
meanwhile moved from 37.65 to 38.35 (the smoothing table absorbed the new
observation): the two calls within TTL of each other return different
lists. -/
theorem claim_C8_counterexample :
    (1900 : ℚ) - 1000 < sC8a.cache_ttl_s ∧
    smallDeltaB (predC8B decayC8).2 (5, 40) = true ∧
    (predC8B decayC8).1 = (predC8A decayC8).1 ∧
    ((predC8B decayC8).1.map (fun f => f.cmg_clp_kwh)).getD 4 0 = 37.65 ∧
    ((predC8C decayC8).1.map (fun f => f.cmg_clp_kwh)).getD 4 0 = 38.35 ∧
    (predC8B decayC8).1 ≠ (predC8C decayC8).1 :=
  cexC8_main decayC8

/-! ### C9: cache invalidation on a large price movement -/

/-- **C9.** Whenever a cache entry exists, the rolling history is nonempty,
and `update(hour, price)` is called with `|price − last observation| > 5`,
the cache is discarded, and the next `predict_next_24h` call recomputes
the forecast (returning the freshly computed list and caching it at its
own call time) instead of returning the cached list. -/
theorem claim_C9 (decay : ℕ → ℚ) (models : Option OnnxModels) (s : PredictorState)
    (t : ℚ) (r : List PriceForecast) (last : ℕ × ℚ) (hour : ℕ) (price : ℚ)
    (now : ℚ) (h2 : ℕ)
    (hc : s.cache = some (t, r))
    (hl : s.history.getLast? = some last)
    (hd : 5 < |price - last.2|) :
    (updateP s hour price).cache = none ∧
    predictNext24h decay models (updateP s hour price) now h2 none =
      (computeForecast decay models (updateP s hour price) h2 none,
       { updateP s hour price with
         cache := some (now, computeForecast decay models (updateP s hour price) h2 none) }) := by
  have hinv : invalidateB s price = true := by
    unfold invalidateB
    rw [hc, hl]
    exact decide_eq_true hd
  have hcn : (updateP s hour price).cache = none := by
    simp [updateP, hinv]
  refine ⟨hcn, ?_⟩
  have hhit : cacheHit (preUpdate (updateP s hour price) h2 none) now = false := by
    show cacheHit (updateP s hour price) now = false
    exact cacheHit_none now hcn
  exact predictNext24h_miss decay models (updateP s hour price) now h2 none hhit

/-- A reachable state with a cache entry and history `[(0, 10)]`. -/
def sC9 : PredictorState :=
  (predictNext24h (fun _ => (1:ℚ)/2) none (updateP initPredictor 0 10) 0 0 none).2

def rC9 : List PriceForecast :=
  (predictNext24h (fun _ => (1:ℚ)/2) none (updateP initPredictor 0 10) 0 0 none).1

/-- Witness for C9: `update(1, 20)` has delta 10 > 5 against the last
observation 10; the cache is cleared and the next call recomputes. -/
theorem claim_C9_witness :
    (updateP sC9 1 20).cache = none ∧
    predictNext24h (fun _ => (1:ℚ)/2) none (updateP sC9 1 20) 50 0 none =
      (computeForecast (fun _ => (1:ℚ)/2) none (updateP sC9 1 20) 0 none,
       { updateP sC9 1 20 with
         cache := some (50, computeForecast (fun _ => (1:ℚ)/2) none (updateP sC9 1 20) 0 none) }) :=
  claim_C9 (fun _ => (1:ℚ)/2) none sC9 0 rC9 (0, 10) 1 20 50 0
    (by with_unfolding_all rfl) (by with_unfolding_all rfl)
    (by with_unfolding_all decide)

end OpenBess
